import Mathlib

/-!
Verification of the ASV monorepo scaffold generator (`check.py`).

The generator is embedded shallowly: the filesystem is an explicit state
(`FS`) holding a file store, a directory set and a permission store, all
as association lists keyed by slash-separated relative paths, plus sets
of injected fault locations used to model I/O errors (permission denied,
disk full, ...).  Fallible filesystem primitives return `Except String FS`.
The Python functions `write_file`, `chmod_executables` and the body of
`main` are translated one-to-one on top of these primitives, and
`REPO_STRUCTURE` is built by the same insertion sequence as the source
(dict literal, per-service loop, `update` blocks, per-feature and
per-model loops) through `dictInsert`, which mirrors Python dict
assignment (replace in place if the key exists, append otherwise).
-/

/-- Association-list lookup keyed by the first component. -/
def lookupA {β : Type} (l : List (String × β)) (k : String) : Option β :=
  (l.find? (fun e => e.1 == k)).map (fun e => e.2)

/-- Association-list update: replace any binding of `k` by `(k, v)`.
The new binding is placed at the head; stale bindings are dropped. -/
def updateA {β : Type} (l : List (String × β)) (k : String) (v : β) :
    List (String × β) :=
  (k, v) :: l.filter (fun e => !(e.1 == k))

/-- Does the association list bind the key `k`? -/
def hasKeyA {β : Type} (l : List (String × β)) (k : String) : Bool :=
  l.any (fun e => e.1 == k)

/-- The filesystem state under the resolved root.  `files`, `dirs` and
`modes` are the actual state; the three `fail*` fields are the fault
model: operations touching a listed location raise, modelling I/O errors
such as permission denied or disk full. -/
structure FS where
  files : List (String × String)
  dirs : List String
  modes : List (String × Nat)
  failMkdir : List String
  failWrite : List String
  failChmod : List String
  deriving DecidableEq, Repr

/-- Content of the file at `p`, if a file exists there. -/
def lookupFile (fs : FS) (p : String) : Option String :=
  lookupA fs.files p

/-- Permission mode recorded for `p`, if any. -/
def lookupMode (fs : FS) (p : String) : Option Nat :=
  lookupA fs.modes p

/-- `Path.exists()`: true if a file or a directory is at `p`. -/
def FS.pathExists (fs : FS) (p : String) : Bool :=
  hasKeyA fs.files p || fs.dirs.contains p

/-- Split a list of characters at every `/`. -/
def splitSlash : List Char → List Char → List String
  | [], acc => [String.mk acc.reverse]
  | c :: cs, acc =>
    if c = '/' then String.mk acc.reverse :: splitSlash cs []
    else splitSlash cs (c :: acc)

/-- The slash-separated components of a relative path. -/
def splitPath (p : String) : List String :=
  splitSlash p.data []

/-- Rejoin path components with `/`. -/
def joinPath : List String → String
  | [] => ""
  | [x] => x
  | x :: y :: xs => x ++ "/" ++ joinPath (y :: xs)

/-- The proper ancestor directories of a slash-separated relative path,
outermost first: `ancestors "a/b/c.md" = ["a", "a/b"]`. -/
def ancestors (p : String) : List String :=
  let cs := splitPath p
  (List.range (cs.length - 1)).map (fun i => joinPath (cs.take (i + 1)))

/-- One `mkdir` with `exist_ok=True` semantics: an existing directory is
fine; a file in the way raises `FileExistsError`; an injected fault
raises an `OSError`. -/
def FS.mkdir (fs : FS) (d : String) : Except String FS :=
  if fs.dirs.contains d then .ok fs
  else if hasKeyA fs.files d then .error ("FileExistsError: " ++ d)
  else if fs.failMkdir.contains d then .error ("OSError: mkdir " ++ d)
  else .ok { fs with dirs := d :: fs.dirs }

/-- `path.parent.mkdir(parents=True, exist_ok=True)`: create every
ancestor directory of `p`, outermost first. -/
def ensure_parent_dir (fs : FS) (p : String) : Except String FS :=
  (ancestors p).foldlM FS.mkdir fs

/-- `path.write_text(content)`: raises `IsADirectoryError` on a
directory, raises on an injected fault, otherwise replaces the file's
content. -/
def FS.write_text (fs : FS) (p c : String) : Except String FS :=
  if fs.dirs.contains p then .error ("IsADirectoryError: " ++ p)
  else if fs.failWrite.contains p then .error ("OSError: write " ++ p)
  else .ok { fs with files := updateA fs.files p c }

/-- `write_file(path, content, overwrite)` from the source: ensure the
parent directory, skip silently when the path exists and `overwrite` is
false, otherwise write the content. -/
def write_file (fs : FS) (p c : String) (overwrite : Bool) :
    Except String FS :=
  match ensure_parent_dir fs p with
  | .error e => .error e
  | .ok fs1 =>
    if fs1.pathExists p && !overwrite then .ok fs1
    else fs1.write_text p c

/-- The Writer loop from `main`: `write_file` on every table entry in
order; any raised error propagates immediately. -/
def write_all (fs : FS) (tbl : List (String × String)) (ow : Bool) :
    Except String FS :=
  tbl.foldlM (fun f e => write_file f e.1 e.2 ow) fs

/-- `path.chmod(mode)`: raises on an injected fault, otherwise records
the mode. -/
def FS.chmod (fs : FS) (p : String) (m : Nat) : Except String FS :=
  if fs.failChmod.contains p then .error ("OSError: chmod " ++ p)
  else .ok { fs with modes := updateA fs.modes p m }

/-- `chmod_executables(root, relpaths)` from the source: for each listed
path, if it exists attempt `chmod 0o755` and swallow any failure. -/
def chmod_executables (fs : FS) (relpaths : List String) : FS :=
  relpaths.foldl
    (fun f rp =>
      if FS.pathExists f rp then
        match FS.chmod f rp 0o755 with
        | .ok f2 => f2
        | .error _ => f
      else f)
    fs

/-- The filesystem under a freshly created empty root, with no faults. -/
def emptyFS : FS := ⟨[], [], [], [], [], []⟩

/-- Python dict assignment `m[k] = v`: replace in place when `k` is
already bound (keeping its position), append otherwise. -/
def dictInsert (m : List (String × String)) (k v : String) :
    List (String × String) :=
  if m.any (fun e => e.1 == k) then
    m.map (fun e => if e.1 == k then (k, v) else e)
  else m ++ [(k, v)]

/-- The literal entries of the `REPO_STRUCTURE` dict, in source order. -/
def baseEntries : List (String × String) := [
  ("README.md", "# ASV\n\nMonorepo scaffold.\n"),
  ("LICENSE", "TODO: rAdd license text.\n"),
  (".env.example", "# Example env\n"),
  (".editorconfig", "root = true\n\n[*]\nend_of_line = lf\ninsert_final_newline = true\ncharset = utf-8\n"),
  (".gitignore", ".env\n.DS_Store\n__pycache__/\n*.pyc\nnode_modules/\nbuild/\ndist/\n.ml_data/\n"),
  ("docker-compose.yml", "version: \x273.9\x27\nservices: \x7b\x7d\n"),
  ("Makefile", "help:\n\t@echo \"ASV repo scaffold\"\n"),
  ("CHANGELOG.md", "# Changelog\n\n"),
  ("SECURITY.md", "# Security\n\nReport issues responsibly.\n"),
  (".github/workflows/ci.yml", "name: ci\non: [push, pull_request]\njobs: \x7b\x7d\n"),
  (".github/workflows/lint.yml", "name: lint\non: [push, pull_request]\njobs: \x7b\x7d\n"),
  (".github/workflows/tests.yml", "name: tests\non: [push, pull_request]\njobs: \x7b\x7d\n"),
  (".github/workflows/security-scan.yml", "name: security-scan\non: [push, pull_request]\njobs: \x7b\x7d\n"),
  (".github/workflows/release.yml", "name: release\non:\n  push:\n    tags:\n      - \x27v*\x27\njobs: \x7b\x7d\n"),
  (".github/CODEOWNERS", "* @CapstoneTeam\n"),
  (".github/PULL_REQUEST_TEMPLATE.md", "## Summary\n\n## Testing\n\n## Screenshots/Logs\n\n"),
  (".githooks/commit-msg", "#!/usr/bin/env bash\nset -euo pipefail\n\nmsg_file=\"$1\"\nsubject=\"$(head -n1 \"$msg_file\")\"\n\n# Example: feat(flutter): add vehicle mode toggle @anmol\npattern=\x27^(feat|fix|perf|refactor|test|docs|style|chore|build|ci|revert)(\\([a-z0-9_-]+\\))?: .+ @[a-z0-9_]+$\x27\n\nif ! [[ \"$subject\" =~ $pattern ]]; then\n  echo \"❌ Invalid commit message.\"\n  echo \"Use: type(scope): message @name\"\n  echo \"Example: feat(flutter): add vehicle mode toggle @anmol\"\n  echo \"Allowed types: feat fix perf refactor test docs style chore build ci revert\"\n  exit 1\nfi\n"),
  (".githooks/pre-commit", "#!/usr/bin/env bash\n# optional: run formatter/lint\nexit 0\n"),
  (".githooks/pre-push", "#!/usr/bin/env bash\n# optional: quick test gate\nexit 0\n"),
  ("docs/architecture/overview.md", "# Architecture Overview\n"),
  ("docs/architecture/dataflow.md", "# Dataflow\n"),
  ("docs/architecture/interfaces.md", "# Interfaces\n"),
  ("docs/architecture/state_machines.md", "# State Machines\n"),
  ("docs/architecture/failure_modes.md", "# Failure Modes\n"),
  ("docs/architecture/threat_model.md", "# Threat Model\n"),
  ("docs/safety/estop.md", "# E-Stop\n"),
  ("docs/safety/safe_stop_policy.md", "# Safe Stop Policy\n"),
  ("docs/safety/override_policy.md", "# Override Policy\n"),
  ("docs/safety/privacy_policy.md", "# Privacy Policy\n"),
  ("docs/safety/retention_policy.md", "# Retention Policy\n"),
  ("docs/runbooks/onboarding.md", "# Onboarding\n"),
  ("docs/runbooks/local_dev.md", "# Local Development\n"),
  ("docs/runbooks/staging_deploy.md", "# Staging Deploy\n"),
  ("docs/runbooks/vehicle_bringup.md", "# Vehicle Bring-up\n"),
  ("docs/runbooks/incident_response.md", "# Incident Response\n"),
  ("docs/api/openapi.md", "# OpenAPI\n"),
  ("docs/api/websocket_events.md", "# Websocket Events\n"),
  ("docs/api/command_contracts.md", "# Command Contracts\n"),
  ("schemas/README.md", "# Schemas\n\nSingle source of truth.\n"),
  ("schemas/openapi/openapi.yaml", "openapi: 3.0.3\ninfo:\n  title: ASV API\n  version: 0.1.0\npaths: \x7b\x7d\n"),
  ("schemas/proto/telemetry.proto", "syntax = \"proto3\";\npackage asv;\n"),
  ("schemas/proto/commands.proto", "syntax = \"proto3\";\npackage asv;\n"),
  ("schemas/proto/incidents.proto", "syntax = \"proto3\";\npackage asv;\n"),
  ("schemas/proto/auth.proto", "syntax = \"proto3\";\npackage asv;\n"),
  ("schemas/jsonschema/Telemetry.json", "\x7b\n  \"$schema\": \"http://json-schema.org/draft-07/schema#\",\n  \"title\": \"Telemetry\",\n  \"type\": \"object\"\n\x7d\n"),
  ("schemas/jsonschema/VehicleState.json", "\x7b\n  \"$schema\": \"http://json-schema.org/draft-07/schema#\",\n  \"title\": \"VehicleState\",\n  \"type\": \"object\"\n\x7d\n"),
  ("schemas/jsonschema/CommandRequest.json", "\x7b\n  \"$schema\": \"http://json-schema.org/draft-07/schema#\",\n  \"title\": \"CommandRequest\",\n  \"type\": \"object\"\n\x7d\n"),
  ("schemas/jsonschema/CommandResult.json", "\x7b\n  \"$schema\": \"http://json-schema.org/draft-07/schema#\",\n  \"title\": \"CommandResult\",\n  \"type\": \"object\"\n\x7d\n"),
  ("schemas/jsonschema/OverrideToken.json", "\x7b\n  \"$schema\": \"http://json-schema.org/draft-07/schema#\",\n  \"title\": \"OverrideToken\",\n  \"type\": \"object\"\n\x7d\n"),
  ("schemas/jsonschema/Incident.json", "\x7b\n  \"$schema\": \"http://json-schema.org/draft-07/schema#\",\n  \"title\": \"Incident\",\n  \"type\": \"object\"\n\x7d\n"),
  ("schemas/jsonschema/Alert.json", "\x7b\n  \"$schema\": \"http://json-schema.org/draft-07/schema#\",\n  \"title\": \"Alert\",\n  \"type\": \"object\"\n\x7d\n"),
  ("schemas/jsonschema/AuditEvent.json", "\x7b\n  \"$schema\": \"http://json-schema.org/draft-07/schema#\",\n  \"title\": \"AuditEvent\",\n  \"type\": \"object\"\n\x7d\n"),
  ("schemas/jsonschema/ConfigBundle.json", "\x7b\n  \"$schema\": \"http://json-schema.org/draft-07/schema#\",\n  \"title\": \"ConfigBundle\",\n  \"type\": \"object\"\n\x7d\n"),
  ("infra/codeserver/Dockerfile", "FROM codercom/code-server:latest\n"),
  ("infra/codeserver/docker-compose.yml", "version: \x273.9\x27\nservices: \x7b\x7d\n"),
  ("infra/codeserver/entrypoint.sh", "#!/usr/bin/env bash\nset -e\nexec \"$@\"\n"),
  ("infra/codeserver/init-repo.sh", "#!/usr/bin/env bash\nset -e\n# clone repo / set hooks / install deps\n"),
  ("infra/codeserver/README.md", "# CodeServer\n"),
  ("infra/docker/vehicle.Dockerfile", "FROM ubuntu:24.04\n"),
  ("infra/docker/backend.Dockerfile", "FROM node:20\n"),
  ("infra/docker/sim.Dockerfile", "FROM ubuntu:24.04\n"),
  ("infra/docker/ml.Dockerfile", "FROM python:3.11\n"),
  ("infra/monitoring/prometheus.yml", "global:\n  scrape_interval: 15s\nscrape_configs: []\n"),
  ("infra/monitoring/grafana/README.md", "# Grafana configs\n"),
  ("infra/monitoring/dashboards/README.md", "# Dashboards\n"),
  ("infra/k8s/README.md", "# K8s manifests\n"),
  ("infra/k8s/namespaces/README.md", "# namespaces\n"),
  ("infra/k8s/backend/README.md", "# backend\n"),
  ("infra/k8s/monitoring/README.md", "# monitoring\n"),
  ("infra/k8s/ingress/README.md", "# ingress\n"),
  ("infra/terraform/README.md", "# Terraform\n"),
  ("infra/terraform/modules/README.md", "# modules\n"),
  ("infra/terraform/envs/README.md", "# envs\n"),
  ("vehicle/README.md", "# Vehicle\n"),
  ("vehicle/config/vehicle.yaml", "vehicle:\n  name: asv\n"),
  ("vehicle/config/sensors.yaml", "sensors: \x7b\x7d\n"),
  ("vehicle/config/zones.yaml", "zones: []\n"),
  ("vehicle/config/rules.yaml", "rules: []\n"),
  ("vehicle/config/privacy.yaml", "privacy:\n  face_blur_default: true\n"),
  ("vehicle/config/logging.yaml", "logging:\n  level: INFO\n"),
  ("vehicle/config/model_manifest.yaml", "models: \x7b\x7d\n"),
  ("vehicle/launch/bringup.launch.py", "# bringup launch\n"),
  ("vehicle/launch/autonomy.launch.py", "# autonomy launch\n"),
  ("vehicle/launch/teleop.launch.py", "# teleop launch\n"),
  ("vehicle/launch/sim_bridge.launch.py", "# sim bridge launch\n"),
  ("vehicle/scripts/run_vehicle.sh", "#!/usr/bin/env bash\nset -e\n"),
  ("vehicle/scripts/record_bag.sh", "#!/usr/bin/env bash\nset -e\n"),
  ("vehicle/scripts/replay_bag.sh", "#!/usr/bin/env bash\nset -e\n"),
  ("vehicle/scripts/health_check.sh", "#!/usr/bin/env bash\nset -e\n"),
  ("vehicle/scripts/update_models.sh", "#!/usr/bin/env bash\nset -e\n"),
  ("backend/README.md", "# Backend\n"),
  ("backend/libs/common/config.ts", "export const config = \x7b\x7d;\n"),
  ("backend/libs/common/logger.ts", "export const logger = console;\n"),
  ("backend/libs/common/errors.ts", "export class AppError extends Error \x7b\x7d\n"),
  ("backend/libs/common/validation.ts", "export const validate = () => true;\n"),
  ("backend/libs/schemas/README.md", "# Generated schema types\n"),
  ("backend/db/schema.sql", "-- schema\n"),
  ("backend/db/migrations/README.md", "# migrations\n"),
  ("backend/db/seed/README.md", "# seed\n")
]

/-- `SERVICE_NAMES` from the source. -/
def SERVICE_NAMES : List String := [
  "gateway", "auth", "fleet", "telemetry", "realtime", "commands",
  "approvals", "incidents", "alerting", "audit", "policy", "video",
  "config_rollout"
]

/-- The per-service generated entries: for each name `s`, a
`src/README.md` and a `tests/README.md` under `backend/services/{ s}`,
in loop order. -/
def serviceEntries (names : List String) : List (String × String) :=
  names.flatMap (fun s =>
    [("backend/services/" ++ s ++ "/src/README.md", "# " ++ s ++ "\n"),
     ("backend/services/" ++ s ++ "/tests/README.md",
      "# tests for " ++ s ++ "\n")])

/-- The Flutter app `update` block, in source order. -/
def flutterEntries : List (String × String) := [
  ("apps/operator_flutter/README.md", "# Operator Flutter App\n"),
  ("apps/operator_flutter/pubspec.yaml", "name: operator_flutter\nversion: 0.1.0\n"),
  ("apps/operator_flutter/analysis_options.yaml", "include: package:flutter_lints/flutter.yaml\n"),
  ("apps/operator_flutter/lib/main.dart", "void main() \x7b\x7d\n"),
  ("apps/operator_flutter/lib/app.dart", "// app entry\n"),
  ("apps/operator_flutter/lib/core/config.dart", "// config\n"),
  ("apps/operator_flutter/lib/core/auth/README.md", "# auth\n"),
  ("apps/operator_flutter/lib/core/networking/README.md", "# networking\n"),
  ("apps/operator_flutter/lib/core/realtime/README.md", "# realtime\n"),
  ("apps/operator_flutter/lib/core/storage/README.md", "# storage\n"),
  ("apps/operator_flutter/lib/core/logging/README.md", "# logging\n"),
  ("apps/operator_flutter/lib/models/README.md", "# models\n"),
  ("apps/operator_flutter/lib/shared_ui/README.md", "# shared UI\n")
]

/-- `FLUTTER_FEATURES` from the source. -/
def FLUTTER_FEATURES : List String := [
  "login", "vehicles", "live_map", "video", "incidents", "alerts",
  "controls", "approvals", "safety", "settings"
]

/-- The per-feature generated entries. -/
def featureEntries (names : List String) : List (String × String) :=
  names.map (fun f =>
    ("apps/operator_flutter/lib/features/" ++ f ++ "/README.md",
     "# " ++ f ++ "\n"))

/-- The ML `update` block, in source order. -/
def mlEntries : List (String × String) := [
  ("ml/README.md", "# ML\n"),
  ("ml/registry/manifests/README.md", "# manifests\n"),
  ("ml/registry/model_cards/README.md", "# model cards\n"),
  ("ml/registry/checksums/README.md", "# checksums\n"),
  ("ml/inference/runtimes/onnxruntime/README.md", "# onnxruntime runtime\n"),
  ("ml/inference/runtimes/tensorrt/README.md", "# tensorrt runtime\n"),
  ("ml/inference/postprocess/README.md", "# postprocess\n"),
  ("ml/inference/calibration/README.md", "# calibration\n"),
  ("ml/inference/bench/README.md", "# bench\n"),
  ("ml/training/pipelines/README.md", "# pipelines\n"),
  ("ml/training/configs/README.md", "# configs\n"),
  ("ml/training/augmentation/README.md", "# augmentation\n"),
  ("ml/training/evaluation/README.md", "# evaluation\n"),
  ("ml/training/exports/README.md", "# exports\n"),
  ("ml/data/raw/.gitkeep", ""),
  ("ml/data/interim/.gitkeep", ""),
  ("ml/data/processed/.gitkeep", ""),
  ("ml/data/labels/.gitkeep", ""),
  ("ml/data/datasheets/README.md", "# datasheets\n"),
  ("ml/tools/export_model.py", "# export model\n"),
  ("ml/tools/dataset_qc.py", "# dataset qc\n"),
  ("ml/tools/generate_model_card.py", "# model card generator\n")
]

/-- `ML_MODELS` from the source. -/
def ML_MODELS : List String := [
  "object_detection", "behavior_detection", "alpr", "face_blur"
]

/-- The per-model generated entries. -/
def modelEntries (names : List String) : List (String × String) :=
  names.map (fun m => ("ml/models/" ++ m ++ "/README.md", "# " ++ m ++ "\n"))

/-- The simulation `update` block, in source order. -/
def simulationEntries : List (String × String) := [
  ("simulation/README.md", "# Simulation\n"),
  ("simulation/world/README.md", "# world\n"),
  ("simulation/vehicle_model/README.md", "# vehicle model\n"),
  ("simulation/sensors/README.md", "# sensors\n"),
  ("simulation/scenarios/intrusion.yaml", "scenario: intrusion\n"),
  ("simulation/scenarios/loitering.yaml", "scenario: loitering\n"),
  ("simulation/scenarios/tailing.yaml", "scenario: tailing\n"),
  ("simulation/scenarios/crowd_event.yaml", "scenario: crowd_event\n"),
  ("simulation/replay/align_timeline.py", "# align timeline\n"),
  ("simulation/replay/render_overlays.py", "# render overlays\n"),
  ("simulation/replay/export_report.py", "# export report\n"),
  ("simulation/evaluation/metrics.py", "# metrics\n"),
  ("simulation/evaluation/regressions.py", "# regressions\n"),
  ("simulation/evaluation/reports/README.md", "# reports\n")
]

/-- The tools `update` block, in source order. -/
def toolsEntries : List (String × String) := [
  ("tools/dev/setup-hooks.sh", "#!/usr/bin/env bash\nset -e\ngit config core.hooksPath .githooks\nchmod +x .githooks/commit-msg\n"),
  ("tools/dev/setup-codeserver.sh", "#!/usr/bin/env bash\nset -e\n# codeserver setup\n"),
  ("tools/dev/format.sh", "#!/usr/bin/env bash\nset -e\n# run formatters\n"),
  ("tools/dev/generate-clients.sh", "#!/usr/bin/env bash\nset -e\n# generate api clients\n"),
  ("tools/git/_commit_tag.sh", "#!/usr/bin/env bash\nset -e\n# commit helper\n"),
  ("tools/git/anmol", "#!/usr/bin/env bash\nset -e\nDIR=\"$(cd \"$(dirname \"$0\")\" && pwd)\"\n\"$DIR/_commit_tag.sh\" anmol \"$@\"\n"),
  ("tools/git/jaspinder", "#!/usr/bin/env bash\nset -e\nDIR=\"$(cd \"$(dirname \"$0\")\" && pwd)\"\n\"$DIR/_commit_tag.sh\" jaspinder \"$@\"\n"),
  ("tools/git/chris", "#!/usr/bin/env bash\nset -e\nDIR=\"$(cd \"$(dirname \"$0\")\" && pwd)\"\n\"$DIR/_commit_tag.sh\" chris \"$@\"\n"),
  ("tools/git/prabh", "#!/usr/bin/env bash\nset -e\nDIR=\"$(cd \"$(dirname \"$0\")\" && pwd)\"\n\"$DIR/_commit_tag.sh\" prabh \"$@\"\n"),
  ("tools/logs/parse.py", "# parse logs\n"),
  ("tools/logs/align.py", "# align logs\n"),
  ("tools/logs/export_incident_report.py", "# export incident report\n"),
  ("tools/logs/redact_video.py", "# redact video\n"),
  ("tools/calibration/README.md", "# calibration tools\n"),
  ("tools/dataset/README.md", "# dataset tools\n"),
  ("tools/labeling/README.md", "# labeling tools\n")
]

/-- The tests `update` block, in source order. -/
def testsEntries : List (String × String) := [
  ("tests/contract/README.md", "# contract tests\n"),
  ("tests/integration/README.md", "# integration tests\n"),
  ("tests/sim/README.md", "# sim regression tests\n"),
  ("tests/e2e/README.md", "# end-to-end tests\n")
]

/-- The full insertion sequence that builds `REPO_STRUCTURE`, in source
order: dict literal, per-service loop, Flutter `update` block,
per-feature loop, the single Flutter test entry, ML `update` block,
per-model loop, simulation, tools and tests `update` blocks. -/
def repoInsertions (svcs feats mdls : List String) :
    List (String × String) :=
  baseEntries ++ serviceEntries svcs ++ flutterEntries ++
    featureEntries feats ++
    [("apps/operator_flutter/test/README.md", "# tests\n")] ++
    mlEntries ++ modelEntries mdls ++ simulationEntries ++
    toolsEntries ++ testsEntries

/-- The Structure Table Builder: replay the insertion sequence through
Python dict-assignment semantics.  A pure function of the three name
lists. -/
def buildRepoStructure (svcs feats mdls : List String) :
    List (String × String) :=
  (repoInsertions svcs feats mdls).foldl
    (fun m e => dictInsert m e.1 e.2) []

/-- `REPO_STRUCTURE` from the source. -/
def REPO_STRUCTURE : List (String × String) :=
  buildRepoStructure SERVICE_NAMES FLUTTER_FEATURES ML_MODELS

/-- The `executables` list from `main`, in source order. -/
def EXECUTABLES : List String := [
  ".githooks/commit-msg",
  ".githooks/pre-commit",
  ".githooks/pre-push",
  "vehicle/scripts/run_vehicle.sh",
  "vehicle/scripts/record_bag.sh",
  "vehicle/scripts/replay_bag.sh",
  "vehicle/scripts/health_check.sh",
  "vehicle/scripts/update_models.sh",
  "infra/codeserver/entrypoint.sh",
  "infra/codeserver/init-repo.sh",
  "tools/dev/setup-hooks.sh",
  "tools/dev/setup-codeserver.sh",
  "tools/dev/format.sh",
  "tools/dev/generate-clients.sh",
  "tools/git/_commit_tag.sh",
  "tools/git/anmol",
  "tools/git/jaspinder",
  "tools/git/chris",
  "tools/git/prabh"
]

/-- The body of `main` after argument parsing and root creation: the
Writer over the whole table, then the best-effort Permission Setter on
its result.  Any Writer error propagates (the source installs no
handler). -/
def mainRun (fs : FS) (ow : Bool) : Except String FS :=
  (write_all fs REPO_STRUCTURE ow).map
    (fun g => chmod_executables g EXECUTABLES)

/-- The process exit status: 0 on success; 1 when an uncaught error
aborts the interpreter. -/
def mainExitCode (fs : FS) (ow : Bool) : Nat :=
  if (mainRun fs ow).isOk then 0 else 1

deriving instance DecidableEq for Except

/-- Is the first component list a prefix of the second? -/
def isPrefixOfB : List String → List String → Bool
  | [], _ => true
  | _ :: _, [] => false
  | a :: as, b :: bs => a == b && isPrefixOfB as bs

/-- Are the component lists pairwise distinct? -/
def pairwiseNeB : List (List String) → Bool
  | [] => true
  | x :: xs => xs.all (fun y => !(x == y)) && pairwiseNeB xs

/-- Certificate that no table key is a proper component-prefix (hence an
ancestor directory) of another table key. -/
def noKeyAncestorB (tbl : List (String × String)) : Bool :=
  let kcs := tbl.map (fun e => splitPath e.1)
  kcs.all (fun q => kcs.all (fun r =>
    !(isPrefixOfB q r && Nat.blt q.length r.length)))

/-- Certificate that the table keys are pairwise distinct, checked on
their component lists. -/
def nodupKeysB (tbl : List (String × String)) : Bool :=
  pairwiseNeB (tbl.map (fun e => splitPath e.1))

/-- A root pre-populated with custom content at one target path. -/
def preFS : FS := ⟨[("README.md", "custom")], [], [], [], [], []⟩

/-- A root where writing `README.md` raises (permission denied). -/
def failFS : FS := ⟨[], [], [], [], ["README.md"], []⟩

/-- A root holding one pre-existing directory. -/
def dirFS : FS := ⟨[], ["preexisting"], [], [], [], []⟩

/-- A root holding one unrelated file. -/
def junkFS : FS := ⟨[("junk", "x")], [], [], [], [], []⟩

/-- A root with two shell scripts, where chmod on the first fails. -/
def permFS : FS := ⟨[("a.sh", "x"), ("b.sh", "y")], [], [], [], [], ["a.sh"]⟩

/-- One iteration of the `chmod_executables` loop. -/
def chmodStep (f : FS) (rp : String) : FS :=
  if FS.pathExists f rp then
    match FS.chmod f rp 0o755 with
    | .ok f2 => f2
    | .error _ => f
  else f

/-- Replace the injected chmod-fault set, leaving the state alone. -/
def setFailChmod (fs : FS) (l : List String) : FS :=
  { fs with failChmod := l }

/-! ### Path component lemmas -/

theorem data_append (a b : String) : (a ++ b).data = a.data ++ b.data := rfl

theorem splitSlash_no_slash (cs : List Char) (acc : List Char)
    (h : '/' ∉ cs) :
    splitSlash cs acc = [String.mk (acc.reverse ++ cs)] := by
  induction cs generalizing acc with
  | nil => simp [splitSlash]
  | cons c cs ih =>
    have hc : ¬(c = '/') := fun e => h (e ▸ List.mem_cons_self c cs)
    rw [splitSlash, if_neg hc, ih _ (fun hm => h (List.mem_cons_of_mem _ hm))]
    simp

theorem splitSlash_slash (xs rest : List Char) (acc : List Char)
    (h : '/' ∉ xs) :
    splitSlash (xs ++ '/' :: rest) acc =
      String.mk (acc.reverse ++ xs) :: splitSlash rest [] := by
  induction xs generalizing acc with
  | nil => simp [splitSlash]
  | cons c cs ih =>
    have hc : ¬(c = '/') := fun e => h (e ▸ List.mem_cons_self c cs)
    rw [List.cons_append, splitSlash, if_neg hc,
      ih _ (fun hm => h (List.mem_cons_of_mem _ hm))]
    simp

theorem mem_splitSlash (cs : List Char) (acc : List Char)
    (hacc : '/' ∉ acc) :
    ∀ x ∈ splitSlash cs acc, '/' ∉ x.data := by
  induction cs generalizing acc with
  | nil =>
    intro x hx
    simp only [splitSlash, List.mem_singleton] at hx
    subst hx
    simpa using hacc
  | cons c cs ih =>
    intro x hx
    by_cases hc : c = '/'
    · rw [splitSlash, if_pos hc] at hx
      rcases List.mem_cons.1 hx with h1 | h2
      · subst h1; simpa using hacc
      · exact ih [] (by simp) x h2
    · rw [splitSlash, if_neg hc] at hx
      refine ih (c :: acc) ?_ x hx
      intro hm
      rcases List.mem_cons.1 hm with h1 | h2
      · exact hc h1.symm
      · exact hacc h2

theorem splitSlash_ne_nil (cs : List Char) (acc : List Char) :
    splitSlash cs acc ≠ [] := by
  induction cs generalizing acc with
  | nil => simp [splitSlash]
  | cons c cs ih =>
    by_cases hc : c = '/'
    · rw [splitSlash, if_pos hc]; simp
    · rw [splitSlash, if_neg hc]; exact ih _

theorem splitPath_ne_nil (p : String) : splitPath p ≠ [] :=
  splitSlash_ne_nil p.data []

theorem splitPath_mem (p : String) :
    ∀ x ∈ splitPath p, '/' ∉ x.data :=
  mem_splitSlash p.data [] (by simp)

theorem splitPath_joinPath (l : List String) (hne : l ≠ [])
    (hsf : ∀ x ∈ l, '/' ∉ x.data) :
    splitPath (joinPath l) = l := by
  induction l with
  | nil => exact absurd rfl hne
  | cons x xs ih =>
    cases xs with
    | nil =>
      show splitSlash x.data [] = [x]
      rw [splitSlash_no_slash _ _ (hsf x (List.mem_cons_self x []))]
      simp
    | cons y ys =>
      show splitSlash (x ++ "/" ++ joinPath (y :: ys)).data [] = x :: y :: ys
      rw [data_append, data_append]
      have hx : '/' ∉ x.data := hsf x (List.mem_cons_self ..)
      rw [List.append_assoc,
        show (("/" : String).data ++ (joinPath (y :: ys)).data) =
          '/' :: (joinPath (y :: ys)).data from rfl,
        splitSlash_slash _ _ _ hx]
      have := ih (by simp) (fun z hz => hsf z (List.mem_cons_of_mem _ hz))
      rw [show splitSlash (joinPath (y :: ys)).data [] =
        splitPath (joinPath (y :: ys)) from rfl, this]
      simp

/-! ### Certificate soundness -/

theorem isPrefixOfB_iff (a : List String) :
    ∀ b, isPrefixOfB a b = true ↔ a <+: b := by
  induction a with
  | nil => intro b; simp [isPrefixOfB]
  | cons x xs ih =>
    intro b
    cases b with
    | nil =>
      simp [isPrefixOfB]
    | cons y ys =>
      rw [isPrefixOfB]
      simp only [Bool.and_eq_true, beq_iff_eq, ih ys]
      constructor
      · rintro ⟨rfl, ⟨t, rfl⟩⟩; exact ⟨t, rfl⟩
      · rintro ⟨t, ht⟩
        injection ht with h1 h2
        exact ⟨h1, t, h2⟩

theorem pairwiseNeB_sound {α : Type} (f : α → List String) (g : α → String)
    (l : List α) (hinj : ∀ a b, g a = g b → f a = f b)
    (h : pairwiseNeB (l.map f) = true) : (l.map g).Nodup := by
  induction l with
  | nil => exact List.nodup_nil
  | cons x xs ih =>
    rw [List.map_cons, pairwiseNeB, Bool.and_eq_true] at h
    rw [List.map_cons]
    refine List.nodup_cons.2 ⟨?_, ih h.2⟩
    intro hmem
    obtain ⟨y, hy, hgy⟩ := List.mem_map.1 hmem
    have := List.all_eq_true.1 h.1 (f y) (List.mem_map_of_mem f hy)
    rw [hinj x y hgy.symm] at this
    simp at this

theorem noKeyAncestorB_sound (tbl : List (String × String))
    (h : noKeyAncestorB tbl = true) :
    ∀ e ∈ tbl, ∀ r ∈ tbl, e.1 ∉ ancestors r.1 := by
  intro e he r hr hmem
  simp only [ancestors, List.mem_map, List.mem_range] at hmem
  obtain ⟨i, hi, hq⟩ := hmem
  set L := splitPath r.1 with hL
  have hLlen : 1 ≤ L.length :=
    List.length_pos.2 (splitPath_ne_nil r.1)
  have hlen : i + 1 < L.length := by omega
  have htklen : (L.take (i + 1)).length = i + 1 := by
    rw [List.length_take]; omega
  have htkne : L.take (i + 1) ≠ [] := by
    intro hnil; rw [hnil] at htklen; simp at htklen
  have hsf : ∀ x ∈ L.take (i + 1), '/' ∉ x.data :=
    fun x hx => splitPath_mem r.1 x (List.take_subset _ _ hx)
  have hsplit : splitPath e.1 = L.take (i + 1) := by
    rw [← hq]; exact splitPath_joinPath _ htkne hsf
  simp only [noKeyAncestorB, List.all_eq_true] at h
  have hcheck := h (splitPath e.1)
    (List.mem_map_of_mem (fun e => splitPath e.1) he) L
    (List.mem_map_of_mem (fun e => splitPath e.1) hr)
  rw [hsplit] at hcheck
  have hpre : isPrefixOfB (L.take (i + 1)) L = true :=
    (isPrefixOfB_iff _ _).2 ⟨L.drop (i + 1), List.take_append_drop _ _⟩
  have hblt : Nat.blt (L.take (i + 1)).length L.length = true := by
    rw [Nat.blt_eq]; omega
  rw [hpre, hblt] at hcheck
  simp at hcheck

/-! ### The dict construction never collides -/

theorem dictInsert_fresh (m : List (String × String)) (k v : String)
    (h : m.any (fun e => e.1 == k) = false) :
    dictInsert m k v = m ++ [(k, v)] := by
  rw [dictInsert, h]; simp

theorem foldl_dictInsert_eq (l : List (String × String)) :
    ∀ m, ((m ++ l).map Prod.fst).Nodup →
      l.foldl (fun m e => dictInsert m e.1 e.2) m = m ++ l := by
  induction l with
  | nil => intro m _; simp
  | cons e rest ih =>
    intro m h
    have hnotmem : e.1 ∉ m.map Prod.fst := by
      rw [List.map_append, List.nodup_append] at h
      intro hmem
      exact h.2.2 hmem (by simp)
    have hfresh : m.any (fun x => x.1 == e.1) = false := by
      rw [List.any_eq_false]
      intro x hx
      simp only [beq_iff_eq]
      intro hxe
      exact hnotmem (hxe ▸ List.mem_map_of_mem Prod.fst hx)
    rw [List.foldl_cons]
    show List.foldl (fun m e => dictInsert m e.1 e.2)
      (dictInsert m e.1 e.2) rest = m ++ e :: rest
    rw [dictInsert_fresh _ _ _ hfresh,
      ih (m ++ [e]) (by simpa using h)]
    simp

set_option maxRecDepth 200000 in
/-- The insertion sequence has pairwise distinct keys (kernel-checked on
component lists). -/
theorem repo_keys_nodup :
    ((repoInsertions SERVICE_NAMES FLUTTER_FEATURES ML_MODELS).map
      Prod.fst).Nodup := by
  have h : nodupKeysB (repoInsertions SERVICE_NAMES FLUTTER_FEATURES
      ML_MODELS) = true := by decide
  rw [nodupKeysB] at h
  exact pairwiseNeB_sound (fun e => splitPath e.1) Prod.fst _
    (fun a b hab => show splitPath a.1 = splitPath b.1 from hab ▸ rfl) h

set_option maxRecDepth 200000 in
/-- No key of the insertion sequence is an ancestor directory of another
key (kernel-checked on component lists). -/
theorem repo_no_anc :
    ∀ e ∈ repoInsertions SERVICE_NAMES FLUTTER_FEATURES ML_MODELS,
    ∀ r ∈ repoInsertions SERVICE_NAMES FLUTTER_FEATURES ML_MODELS,
      e.1 ∉ ancestors r.1 :=
  noKeyAncestorB_sound _ (by decide)

/-- Replaying the construction through Python dict semantics yields the
plain insertion sequence: no insertion ever hits an existing key. -/
theorem repo_eq :
    REPO_STRUCTURE = repoInsertions SERVICE_NAMES FLUTTER_FEATURES
      ML_MODELS := by
  have h := foldl_dictInsert_eq
    (repoInsertions SERVICE_NAMES FLUTTER_FEATURES ML_MODELS) []
    (by simpa using repo_keys_nodup)
  simpa [REPO_STRUCTURE, buildRepoStructure] using h

/-! ### Association list lemmas -/

theorem lookupA_updateA_self {β : Type} (l : List (String × β)) (k : String)
    (v : β) : lookupA (updateA l k v) k = some v := by
  rw [lookupA, updateA, List.find?_cons_of_pos _ (by simp)]
  rfl

theorem find?_filter_ne {β : Type} (l : List (String × β)) (k q : String)
    (hne : q ≠ k) :
    (l.filter (fun e => !(e.1 == k))).find? (fun e => e.1 == q) =
      l.find? (fun e => e.1 == q) := by
  induction l with
  | nil => rfl
  | cons a l ih =>
    by_cases hak : a.1 = k
    · rw [List.filter_cons_of_neg (by simp [hak]),
        List.find?_cons_of_neg _ (by simp [hak]; exact fun h => hne h.symm)]
      exact ih
    · rw [List.filter_cons_of_pos (by simp [hak])]
      by_cases haq : a.1 = q
      · rw [List.find?_cons_of_pos _ (by simp [haq]),
          List.find?_cons_of_pos _ (by simp [haq])]
      · rw [List.find?_cons_of_neg _ (by simp [haq]),
          List.find?_cons_of_neg _ (by simp [haq])]
        exact ih

theorem lookupA_updateA_ne {β : Type} (l : List (String × β))
    (k q : String) (v : β) (hne : q ≠ k) :
    lookupA (updateA l k v) q = lookupA l q := by
  rw [lookupA, updateA,
    List.find?_cons_of_neg _ (by simp; exact fun h => hne h.symm),
    find?_filter_ne l k q hne]
  rfl

theorem hasKeyA_eq_isSome {β : Type} (l : List (String × β)) (q : String) :
    hasKeyA l q = (lookupA l q).isSome := by
  induction l with
  | nil => rfl
  | cons a l ih =>
    by_cases haq : a.1 = q
    · rw [hasKeyA, List.any_cons, lookupA,
        List.find?_cons_of_pos _ (by simp [haq])]
      simp [haq]
    · have hb : (a.1 == q) = false := by simp [haq]
      rw [hasKeyA, List.any_cons, hb, Bool.false_or, lookupA,
        List.find?_cons_of_neg _ (by simp [haq]), ← lookupA, ← hasKeyA, ih]

theorem hasKeyA_of_lookupA {β : Type} {l : List (String × β)} {q : String}
    {v : β} (h : lookupA l q = some v) : hasKeyA l q = true := by
  rw [hasKeyA_eq_isSome, h]; rfl

theorem lookupA_of_hasKeyA_false {β : Type} {l : List (String × β)}
    {q : String} (h : hasKeyA l q = false) : lookupA l q = none := by
  rw [hasKeyA_eq_isSome] at h
  exact Option.not_isSome_iff_eq_none.1 (by rw [h]; exact Bool.false_ne_true)

theorem hasKeyA_updateA_ne {β : Type} (l : List (String × β))
    (k q : String) (v : β) (hne : q ≠ k) :
    hasKeyA (updateA l k v) q = hasKeyA l q := by
  rw [hasKeyA_eq_isSome, hasKeyA_eq_isSome, lookupA_updateA_ne l k q v hne]

theorem contains_iff_mem {l : List String} {a : String} :
    l.contains a = true ↔ a ∈ l :=
  List.elem_iff

theorem contains_false_of_not_mem {l : List String} {a : String}
    (h : a ∉ l) : l.contains a = false := by
  rw [← Bool.not_eq_true, contains_iff_mem]
  exact h

/-! ### Except plumbing -/

theorem except_bind_error {α β γ : Type} (e : α) (f : β → Except α γ) :
    (Except.error e >>= f) = Except.error e := rfl

theorem except_bind_ok {α β γ : Type} (b : β) (f : β → Except α γ) :
    (Except.ok b >>= f) = f b := rfl

/-! ### mkdir lemmas -/

theorem mkdir_ok (fs fs' : FS) (d : String)
    (h : FS.mkdir fs d = .ok fs') :
    fs'.files = fs.files ∧ fs'.modes = fs.modes ∧
    fs'.failMkdir = fs.failMkdir ∧ fs'.failWrite = fs.failWrite ∧
    fs'.failChmod = fs.failChmod ∧ d ∈ fs'.dirs ∧
    (∀ x ∈ fs.dirs, x ∈ fs'.dirs) ∧
    (∀ x ∈ fs'.dirs, x ∈ fs.dirs ∨ x = d) := by
  rw [FS.mkdir] at h
  split at h
  · cases h
    refine ⟨rfl, rfl, rfl, rfl, rfl, ?_, fun x hx => hx, fun x hx => Or.inl hx⟩
    next hc => exact contains_iff_mem.1 hc
  · split at h
    · exact Except.noConfusion h
    · split at h
      · exact Except.noConfusion h
      · cases h
        exact ⟨rfl, rfl, rfl, rfl, rfl, List.mem_cons_self ..,
          fun x hx => List.mem_cons_of_mem _ hx,
          fun x hx => (List.mem_cons.1 hx).symm⟩

theorem mkdirs_ok (ds : List String) :
    ∀ fs fs', ds.foldlM FS.mkdir fs = .ok fs' →
    fs'.files = fs.files ∧ fs'.modes = fs.modes ∧
    fs'.failMkdir = fs.failMkdir ∧ fs'.failWrite = fs.failWrite ∧
    fs'.failChmod = fs.failChmod ∧ (∀ d ∈ ds, d ∈ fs'.dirs) ∧
    (∀ x ∈ fs.dirs, x ∈ fs'.dirs) ∧
    (∀ x ∈ fs'.dirs, x ∈ fs.dirs ∨ x ∈ ds) := by
  induction ds with
  | nil =>
    intro fs fs' h
    rw [List.foldlM_nil] at h
    cases h
    exact ⟨rfl, rfl, rfl, rfl, rfl, by simp, fun x hx => hx,
      fun x hx => Or.inl hx⟩
  | cons d ds ih =>
    intro fs fs' h
    rw [List.foldlM_cons] at h
    cases hm : FS.mkdir fs d with
    | error e => rw [hm, except_bind_error] at h; exact Except.noConfusion h
    | ok fs1 =>
      rw [hm, except_bind_ok] at h
      obtain ⟨f1, m1, k1, w1, c1, hd1, mono1, bound1⟩ := mkdir_ok fs fs1 d hm
      obtain ⟨f2, m2, k2, w2, c2, hds2, mono2, bound2⟩ := ih fs1 fs' h
      refine ⟨f2.trans f1, m2.trans m1, k2.trans k1, w2.trans w1,
        c2.trans c1, ?_, fun x hx => mono2 x (mono1 x hx), ?_⟩
      · intro x hx
        rcases List.mem_cons.1 hx with h1 | h2
        · exact h1 ▸ mono2 d hd1
        · exact hds2 x h2
      · intro x hx
        rcases bound2 x hx with h1 | h2
        · rcases bound1 x h1 with h3 | h4
          · exact Or.inl h3
          · exact Or.inr (h4 ▸ List.mem_cons_self ..)
        · exact Or.inr (List.mem_cons_of_mem _ h2)

theorem mkdirs_noop (ds : List String) :
    ∀ fs, (∀ d ∈ ds, fs.dirs.contains d = true) →
    ds.foldlM FS.mkdir fs = .ok fs := by
  induction ds with
  | nil => intro fs _; rfl
  | cons d ds ih =>
    intro fs h
    rw [List.foldlM_cons,
      show FS.mkdir fs d = .ok fs from by
        rw [FS.mkdir, if_pos (h d (List.mem_cons_self ..))],
      except_bind_ok]
    exact ih fs (fun x hx => h x (List.mem_cons_of_mem _ hx))

theorem mkdirs_progress (ds : List String) :
    ∀ fs, fs.failMkdir = [] → (∀ d ∈ ds, hasKeyA fs.files d = false) →
    ∃ fs', ds.foldlM FS.mkdir fs = .ok fs' := by
  induction ds with
  | nil => intro fs _ _; exact ⟨fs, rfl⟩
  | cons d ds ih =>
    intro fs hf hk
    have hstep : ∃ fs1, FS.mkdir fs d = .ok fs1 := by
      rw [FS.mkdir]
      by_cases hc : fs.dirs.contains d = true
      · rw [if_pos hc]; exact ⟨fs, rfl⟩
      · rw [if_neg hc, if_neg (by rw [hk d (List.mem_cons_self ..)]; simp),
          if_neg (by rw [hf]; simp)]
        exact ⟨_, rfl⟩
    obtain ⟨fs1, h1⟩ := hstep
    obtain ⟨ff, _, fk, _, _, _, _, _⟩ := mkdir_ok fs fs1 d h1
    obtain ⟨fs', h2⟩ := ih fs1 (fk.trans hf)
      (fun x hx => ff ▸ hk x (List.mem_cons_of_mem _ hx))
    exact ⟨fs', by rw [List.foldlM_cons, h1, except_bind_ok]; exact h2⟩

/-! ### write_text and write_file lemmas -/

theorem write_text_ok (fs fs' : FS) (p c : String)
    (h : FS.write_text fs p c = .ok fs') :
    fs'.files = updateA fs.files p c ∧ fs'.dirs = fs.dirs ∧
    fs'.modes = fs.modes ∧ fs'.failMkdir = fs.failMkdir ∧
    fs'.failWrite = fs.failWrite ∧ fs'.failChmod = fs.failChmod := by
  rw [FS.write_text] at h
  split at h
  · exact Except.noConfusion h
  · split at h
    · exact Except.noConfusion h
    · cases h; exact ⟨rfl, rfl, rfl, rfl, rfl, rfl⟩

theorem write_text_progress (fs : FS) (p c : String)
    (hdir : fs.dirs.contains p = false) (hfail : fs.failWrite = []) :
    FS.write_text fs p c = .ok { fs with files := updateA fs.files p c } := by
  rw [FS.write_text, if_neg (by rw [hdir]; exact Bool.false_ne_true),
    if_neg (by rw [hfail]; simp)]

theorem write_file_ok_cases (fs fs' : FS) (p c : String) (ow : Bool)
    (h : write_file fs p c ow = .ok fs') :
    ∃ fs1, ensure_parent_dir fs p = .ok fs1 ∧
      ((fs1.pathExists p && !ow) = true ∧ fs' = fs1 ∨
       (fs1.pathExists p && !ow) = false ∧
         FS.write_text fs1 p c = .ok fs') := by
  rw [write_file] at h
  cases he : ensure_parent_dir fs p with
  | error e => rw [he] at h; exact Except.noConfusion h
  | ok fs1 =>
    rw [he] at h
    have h' : (if (fs1.pathExists p && !ow) = true then Except.ok fs1
        else fs1.write_text p c) = Except.ok fs' := h
    by_cases hcond : (fs1.pathExists p && !ow) = true
    · rw [if_pos hcond] at h'
      cases h'
      exact ⟨_, rfl, Or.inl ⟨hcond, rfl⟩⟩
    · rw [if_neg hcond] at h'
      exact ⟨fs1, rfl, Or.inr ⟨Bool.not_eq_true _ ▸ hcond, h'⟩⟩

theorem write_file_master (fs fs' : FS) (p c : String) (ow : Bool)
    (h : write_file fs p c ow = .ok fs') :
    fs'.modes = fs.modes ∧ fs'.failMkdir = fs.failMkdir ∧
    fs'.failWrite = fs.failWrite ∧ fs'.failChmod = fs.failChmod ∧
    (∀ x ∈ fs.dirs, x ∈ fs'.dirs) ∧
    (∀ x ∈ fs'.dirs, x ∈ fs.dirs ∨ x ∈ ancestors p) ∧
    (∀ a ∈ ancestors p, a ∈ fs'.dirs) ∧
    (fs'.files = fs.files ∨ fs'.files = updateA fs.files p c) := by
  obtain ⟨fs1, he, hcase⟩ := write_file_ok_cases fs fs' p c ow h
  obtain ⟨ef, em, ek, ew, ec, eds, emono, ebound⟩ :=
    mkdirs_ok (ancestors p) fs fs1 he
  rcases hcase with ⟨_, rfl⟩ | ⟨_, hw⟩
  · exact ⟨em, ek, ew, ec, emono, ebound, eds, Or.inl ef⟩
  · obtain ⟨wf, wd, wm, wk, ww, wc⟩ := write_text_ok fs1 fs' p c hw
    exact ⟨wm.trans em, wk.trans ek, ww.trans ew, wc.trans ec,
      fun x hx => wd ▸ emono x hx,
      fun x hx => ebound x (wd ▸ hx),
      fun a ha => wd ▸ eds a ha,
      Or.inr (by rw [wf, ef])⟩

theorem write_file_frame (fs fs' : FS) (p c q : String) (ow : Bool)
    (h : write_file fs p c ow = .ok fs') (hne : q ≠ p) :
    lookupFile fs' q = lookupFile fs q := by
  obtain ⟨_, _, _, _, _, _, _, hfl⟩ := write_file_master fs fs' p c ow h
  rcases hfl with h1 | h2
  · rw [lookupFile, lookupFile, h1]
  · rw [lookupFile, lookupFile, h2, lookupA_updateA_ne _ _ _ _ hne]

theorem write_file_preserves_existing (fs fs' : FS) (p c c0 : String)
    (h : write_file fs p c false = .ok fs')
    (hq : lookupFile fs p = some c0) :
    lookupFile fs' p = some c0 := by
  obtain ⟨fs1, he, hcase⟩ := write_file_ok_cases fs fs' p c false h
  obtain ⟨ef, _, _, _, _, _, _, _⟩ := mkdirs_ok (ancestors p) fs fs1 he
  have hex : fs1.pathExists p = true := by
    rw [FS.pathExists, ef, hasKeyA_of_lookupA hq]
    rfl
  rcases hcase with ⟨_, rfl⟩ | ⟨hcond, _⟩
  · rw [lookupFile, ef]; exact hq
  · rw [hex] at hcond; simp at hcond

theorem write_file_writes_true (fs fs' : FS) (p c : String)
    (h : write_file fs p c true = .ok fs') :
    lookupFile fs' p = some c := by
  obtain ⟨fs1, _, hcase⟩ := write_file_ok_cases fs fs' p c true h
  rcases hcase with ⟨hcond, _⟩ | ⟨_, hw⟩
  · simp at hcond
  · obtain ⟨wf, _, _, _, _, _⟩ := write_text_ok fs1 fs' p c hw
    rw [lookupFile, wf, lookupA_updateA_self]

theorem write_file_writes_fresh (fs fs' : FS) (p c : String)
    (h : write_file fs p c false = .ok fs')
    (hex : FS.pathExists fs p = false) (hanc : p ∉ ancestors p) :
    lookupFile fs' p = some c := by
  obtain ⟨fs1, he, hcase⟩ := write_file_ok_cases fs fs' p c false h
  obtain ⟨ef, _, _, _, _, _, _, ebound⟩ := mkdirs_ok (ancestors p) fs fs1 he
  rw [FS.pathExists, Bool.or_eq_false_iff] at hex
  have hex1 : fs1.pathExists p = false := by
    rw [FS.pathExists, Bool.or_eq_false_iff, ef]
    refine ⟨hex.1, contains_false_of_not_mem ?_⟩
    intro hmem
    rcases ebound p hmem with h1 | h2
    · have hc := contains_iff_mem.2 h1
      rw [hex.2] at hc
      exact Bool.false_ne_true hc
    · exact hanc h2
  rcases hcase with ⟨hcond, _⟩ | ⟨_, hw⟩
  · rw [hex1] at hcond; simp at hcond
  · obtain ⟨wf, _, _, _, _, _⟩ := write_text_ok fs1 fs' p c hw
    rw [lookupFile, wf, lookupA_updateA_self]

theorem write_file_preserves_not_exists (fs fs' : FS) (r c p : String)
    (ow : Bool) (h : write_file fs r c ow = .ok fs') (hne : p ≠ r)
    (hanc : p ∉ ancestors r) (hex : FS.pathExists fs p = false) :
    FS.pathExists fs' p = false := by
  obtain ⟨_, _, _, _, _, hbound, _, hfl⟩ :=
    write_file_master fs fs' r c ow h
  rw [FS.pathExists, Bool.or_eq_false_iff] at hex
  rw [FS.pathExists, Bool.or_eq_false_iff]
  constructor
  · rcases hfl with h1 | h2
    · rw [h1]; exact hex.1
    · rw [h2, hasKeyA_updateA_ne _ _ _ _ hne]; exact hex.1
  · refine contains_false_of_not_mem ?_
    intro hmem
    rcases hbound p hmem with h1 | h2
    · have := contains_iff_mem.2 h1
      rw [hex.2] at this
      exact Bool.false_ne_true this
    · exact hanc h2

/-! ### write_all lemmas -/

theorem wa_preserve (tbl : List (String × String)) :
    ∀ fs fs' q c0, lookupFile fs q = some c0 →
    write_all fs tbl false = .ok fs' → lookupFile fs' q = some c0 := by
  induction tbl with
  | nil =>
    intro fs fs' q c0 hq h
    rw [write_all, List.foldlM_nil] at h
    cases h
    exact hq
  | cons e rest ih =>
    intro fs fs' q c0 hq h
    rw [write_all, List.foldlM_cons] at h
    cases hw : write_file fs e.1 e.2 false with
    | error er => rw [hw, except_bind_error] at h; exact Except.noConfusion h
    | ok fs1 =>
      rw [hw, except_bind_ok] at h
      by_cases heq : e.1 = q
      · exact ih fs1 fs' q c0
          (by subst heq;
              exact write_file_preserves_existing fs fs1 e.1 e.2 c0 hw hq) h
      · exact ih fs1 fs' q c0
          (by rw [write_file_frame fs fs1 e.1 e.2 q false hw
                (fun hh => heq hh.symm)];
              exact hq) h

theorem wa_frame (tbl : List (String × String)) :
    ∀ fs fs' q ow, q ∉ tbl.map Prod.fst →
    write_all fs tbl ow = .ok fs' → lookupFile fs' q = lookupFile fs q := by
  induction tbl with
  | nil =>
    intro fs fs' q ow _ h
    rw [write_all, List.foldlM_nil] at h
    cases h
    rfl
  | cons e rest ih =>
    intro fs fs' q ow hq h
    rw [List.map_cons] at hq
    have hne : q ≠ e.1 := fun hh => hq (hh ▸ List.mem_cons_self ..)
    have hq' : q ∉ rest.map Prod.fst := fun hh => hq (List.mem_cons_of_mem _ hh)
    rw [write_all, List.foldlM_cons] at h
    cases hw : write_file fs e.1 e.2 ow with
    | error er => rw [hw, except_bind_error] at h; exact Except.noConfusion h
    | ok fs1 =>
      rw [hw, except_bind_ok] at h
      rw [ih fs1 fs' q ow hq' h,
        write_file_frame fs fs1 e.1 e.2 q ow hw hne]

theorem wa_writes_true (tbl : List (String × String)) :
    ∀ fs fs' p c, (tbl.map Prod.fst).Nodup → (p, c) ∈ tbl →
    write_all fs tbl true = .ok fs' → lookupFile fs' p = some c := by
  induction tbl with
  | nil => intro fs fs' p c _ hmem _; exact absurd hmem (List.not_mem_nil _)
  | cons e rest ih =>
    intro fs fs' p c hnd hmem h
    rw [List.map_cons, List.nodup_cons] at hnd
    rw [write_all, List.foldlM_cons] at h
    cases hw : write_file fs e.1 e.2 true with
    | error er => rw [hw, except_bind_error] at h; exact Except.noConfusion h
    | ok fs1 =>
      rw [hw, except_bind_ok] at h
      rcases List.mem_cons.1 hmem with rfl | hmem'
      · rw [wa_frame rest fs1 fs' p true hnd.1 h]
        exact write_file_writes_true fs fs1 p c hw
      · by_cases heq : e.1 = p
        · exact absurd (heq ▸ List.mem_map_of_mem Prod.fst hmem' :
            e.1 ∈ rest.map Prod.fst) hnd.1
        · exact ih fs1 fs' p c hnd.2 hmem' h

theorem wa_writes_false (tbl : List (String × String)) :
    ∀ fs fs' p c, (tbl.map Prod.fst).Nodup →
    (∀ r ∈ tbl, p ∉ ancestors r.1) → FS.pathExists fs p = false →
    (p, c) ∈ tbl → write_all fs tbl false = .ok fs' →
    lookupFile fs' p = some c := by
  induction tbl with
  | nil => intro fs fs' p c _ _ _ hmem _; exact absurd hmem (List.not_mem_nil _)
  | cons e rest ih =>
    intro fs fs' p c hnd hanc hex hmem h
    rw [List.map_cons, List.nodup_cons] at hnd
    rw [write_all, List.foldlM_cons] at h
    cases hw : write_file fs e.1 e.2 false with
    | error er => rw [hw, except_bind_error] at h; exact Except.noConfusion h
    | ok fs1 =>
      rw [hw, except_bind_ok] at h
      rcases List.mem_cons.1 hmem with rfl | hmem'
      · refine wa_preserve rest fs1 fs' p c ?_ h
        exact write_file_writes_fresh fs fs1 p c hw hex
          (hanc (p, c) (List.mem_cons_self ..))
      · by_cases heq : e.1 = p
        · exact absurd (heq ▸ List.mem_map_of_mem Prod.fst hmem' :
            e.1 ∈ rest.map Prod.fst) hnd.1
        · refine ih fs1 fs' p c hnd.2
            (fun r hr => hanc r (List.mem_cons_of_mem _ hr)) ?_ hmem' h
          exact write_file_preserves_not_exists fs fs1 e.1 e.2 p false hw
            (fun hh => heq hh.symm) (hanc e (List.mem_cons_self ..)) hex

theorem wa_dirs_mono (tbl : List (String × String)) :
    ∀ fs fs' ow, write_all fs tbl ow = .ok fs' →
    ∀ d ∈ fs.dirs, d ∈ fs'.dirs := by
  induction tbl with
  | nil =>
    intro fs fs' ow h
    rw [write_all, List.foldlM_nil] at h
    cases h
    exact fun d hd => hd
  | cons e rest ih =>
    intro fs fs' ow h
    rw [write_all, List.foldlM_cons] at h
    cases hw : write_file fs e.1 e.2 ow with
    | error er => rw [hw, except_bind_error] at h; exact Except.noConfusion h
    | ok fs1 =>
      rw [hw, except_bind_ok] at h
      obtain ⟨_, _, _, _, wmono, _, _, _⟩ := write_file_master fs fs1 e.1 e.2 ow hw
      exact fun d hd => ih fs1 fs' ow h d (wmono d hd)

theorem wa_ancestors_dirs (tbl : List (String × String)) :
    ∀ fs fs' ow, write_all fs tbl ow = .ok fs' →
    ∀ e ∈ tbl, ∀ a ∈ ancestors e.1, a ∈ fs'.dirs := by
  induction tbl with
  | nil => intro fs fs' ow _ e he; exact absurd he (List.not_mem_nil _)
  | cons e rest ih =>
    intro fs fs' ow h r hr a ha
    rw [write_all, List.foldlM_cons] at h
    cases hw : write_file fs e.1 e.2 ow with
    | error er => rw [hw, except_bind_error] at h; exact Except.noConfusion h
    | ok fs1 =>
      rw [hw, except_bind_ok] at h
      rcases List.mem_cons.1 hr with rfl | hr'
      · obtain ⟨_, _, _, _, _, _, wanc, _⟩ :=
          write_file_master fs fs1 r.1 r.2 ow hw
        exact wa_dirs_mono rest fs1 fs' ow h a (wanc a ha)
      · exact ih fs1 fs' ow h r hr' a ha

theorem wa_noop (tbl : List (String × String)) :
    ∀ fs, (∀ e ∈ tbl, FS.pathExists fs e.1 = true) →
    (∀ e ∈ tbl, ∀ a ∈ ancestors e.1, fs.dirs.contains a = true) →
    write_all fs tbl false = .ok fs := by
  induction tbl with
  | nil => intro fs _ _; rfl
  | cons e rest ih =>
    intro fs h1 h2
    have hens : ensure_parent_dir fs e.1 = .ok fs :=
      mkdirs_noop _ fs (h2 e (List.mem_cons_self ..))
    have hw : write_file fs e.1 e.2 false = .ok fs := by
      rw [write_file, hens]
      show (if (fs.pathExists e.1 && !false) = true then Except.ok fs
        else fs.write_text e.1 e.2) = Except.ok fs
      rw [if_pos (by rw [h1 e (List.mem_cons_self ..)]; rfl)]
    rw [write_all, List.foldlM_cons, hw, except_bind_ok]
    exact ih fs (fun x hx => h1 x (List.mem_cons_of_mem _ hx))
      (fun x hx => h2 x (List.mem_cons_of_mem _ hx))

theorem wa_progress (tbl : List (String × String)) :
    ∀ (fs : FS) (ow : Bool) (allk alla : List String),
    fs.failMkdir = [] → fs.failWrite = [] →
    (∀ e ∈ tbl, e.1 ∈ allk) →
    (∀ e ∈ tbl, ∀ a ∈ ancestors e.1, a ∈ alla) →
    (∀ a ∈ alla, hasKeyA fs.files a = false) →
    (∀ k ∈ allk, k ∉ fs.dirs) →
    (∀ a ∈ alla, a ∉ allk) →
    ∃ fs', write_all fs tbl ow = .ok fs' := by
  induction tbl with
  | nil => intro fs ow _ _ _ _ _ _ _ _ _; exact ⟨fs, rfl⟩
  | cons e rest ih =>
    intro fs ow allk alla hfm hfw hkeys hancs hIfiles hIdirs hdisj
    obtain ⟨fs1, hens0⟩ := mkdirs_progress (ancestors e.1) fs hfm
      (fun d hd => hIfiles d (hancs e (List.mem_cons_self ..) d hd))
    have hens : ensure_parent_dir fs e.1 = .ok fs1 := hens0
    obtain ⟨ef, _, ek, ew, _, _, emono, ebound⟩ :=
      mkdirs_ok (ancestors e.1) fs fs1 hens0
    have hdirs1 : fs1.dirs.contains e.1 = false := by
      refine contains_false_of_not_mem ?_
      intro hmem
      rcases ebound e.1 hmem with h1 | h2
      · exact hIdirs e.1 (hkeys e (List.mem_cons_self ..)) h1
      · exact hdisj e.1 (hancs e (List.mem_cons_self ..) e.1 h2)
          (hkeys e (List.mem_cons_self ..))
    have hstep : ∃ fs2, write_file fs e.1 e.2 ow = .ok fs2 := by
      by_cases hcond : (fs1.pathExists e.1 && !ow) = true
      · refine ⟨fs1, ?_⟩
        rw [write_file, hens]
        show (if (fs1.pathExists e.1 && !ow) = true then Except.ok fs1
          else fs1.write_text e.1 e.2) = Except.ok fs1
        rw [if_pos hcond]
      · refine ⟨{ fs1 with files := updateA fs1.files e.1 e.2 }, ?_⟩
        rw [write_file, hens]
        show (if (fs1.pathExists e.1 && !ow) = true then Except.ok fs1
          else fs1.write_text e.1 e.2) =
          Except.ok { fs1 with files := updateA fs1.files e.1 e.2 }
        rw [if_neg hcond]
        exact write_text_progress fs1 e.1 e.2 hdirs1 (ew.trans hfw)
    obtain ⟨fs2, hw⟩ := hstep
    obtain ⟨wm, wk2, ww2, wc2, wmono, wbound, _, wfl⟩ :=
      write_file_master fs fs2 e.1 e.2 ow hw
    have h2files : ∀ a ∈ alla, hasKeyA fs2.files a = false := by
      intro a ha
      rcases wfl with h1 | h2
      · rw [h1]; exact hIfiles a ha
      · rw [h2, hasKeyA_updateA_ne _ _ _ _ (fun haeq => hdisj a ha
          (by rw [haeq]; exact hkeys e (List.mem_cons_self ..)))]
        exact hIfiles a ha
    have h2dirs : ∀ k ∈ allk, k ∉ fs2.dirs := by
      intro k hk hmem
      rcases wbound k hmem with h1 | h2
      · exact hIdirs k hk h1
      · exact hdisj k (hancs e (List.mem_cons_self ..) k h2) hk
    obtain ⟨fs', hrest⟩ := ih fs2 ow allk alla (wk2.trans hfm) (ww2.trans hfw)
      (fun x hx => hkeys x (List.mem_cons_of_mem _ hx))
      (fun x hx => hancs x (List.mem_cons_of_mem _ hx)) h2files h2dirs hdisj
    refine ⟨fs', ?_⟩
    rw [write_all, List.foldlM_cons, hw, except_bind_ok]
    exact hrest

theorem write_all_cons (fs : FS) (e : String × String)
    (rest : List (String × String)) (ow : Bool) :
    write_all fs (e :: rest) ow =
      (write_file fs e.1 e.2 ow) >>= (fun g => write_all g rest ow) := by
  rw [write_all, List.foldlM_cons]
  rfl

theorem wa_append (t1 t2 : List (String × String)) :
    ∀ fs ow, write_all fs (t1 ++ t2) ow =
      (write_all fs t1 ow) >>= (fun g => write_all g t2 ow) := by
  induction t1 with
  | nil => intro fs ow; rfl
  | cons e t1 ih =>
    intro fs ow
    rw [List.cons_append, write_all_cons, write_all_cons]
    cases hw : write_file fs e.1 e.2 ow with
    | error er => rfl
    | ok fs1 => exact ih fs1 ow

/-! ### Permission setter lemmas -/

theorem chmod_executables_step (fs : FS) (p : String) (rest : List String) :
    chmod_executables fs (p :: rest) =
      chmod_executables (chmodStep fs p) rest := rfl

theorem chmod_ok_fields (fs fs' : FS) (p : String) (m : Nat)
    (h : FS.chmod fs p m = .ok fs') :
    fs'.files = fs.files ∧ fs'.dirs = fs.dirs ∧
    fs'.failMkdir = fs.failMkdir ∧ fs'.failWrite = fs.failWrite ∧
    fs'.failChmod = fs.failChmod := by
  rw [FS.chmod] at h
  split at h
  · exact Except.noConfusion h
  · cases h; exact ⟨rfl, rfl, rfl, rfl, rfl⟩

theorem chmodStep_fields (fs : FS) (p : String) :
    (chmodStep fs p).files = fs.files ∧ (chmodStep fs p).dirs = fs.dirs ∧
    (chmodStep fs p).failMkdir = fs.failMkdir ∧
    (chmodStep fs p).failWrite = fs.failWrite ∧
    (chmodStep fs p).failChmod = fs.failChmod := by
  unfold chmodStep
  split
  · cases hc : FS.chmod fs p 0o755 with
    | ok f2 => exact chmod_ok_fields fs f2 p _ hc
    | error e => exact ⟨rfl, rfl, rfl, rfl, rfl⟩
  · exact ⟨rfl, rfl, rfl, rfl, rfl⟩

theorem chmodStep_same (fs : FS) (p : String)
    (h : FS.pathExists fs p = false ∨ p ∈ fs.failChmod) :
    chmodStep fs p = fs := by
  unfold chmodStep
  rcases h with h | h
  · rw [if_neg (by rw [h]; exact Bool.false_ne_true)]
  · by_cases hex : FS.pathExists fs p = true
    · rw [if_pos hex, FS.chmod, if_pos (contains_iff_mem.2 h)]
    · rw [if_neg hex]

theorem chmodStep_set (fs : FS) (p : String)
    (hex : FS.pathExists fs p = true) (hnf : p ∉ fs.failChmod) :
    chmodStep fs p = { fs with modes := updateA fs.modes p 0o755 } := by
  unfold chmodStep
  rw [if_pos hex, FS.chmod,
    if_neg (by rw [contains_false_of_not_mem hnf]; exact Bool.false_ne_true)]

theorem chmodStep_mode_ne (fs : FS) (p q : String) (hne : q ≠ p) :
    lookupMode (chmodStep fs p) q = lookupMode fs q := by
  by_cases hex : FS.pathExists fs p = true
  · by_cases hnf : p ∈ fs.failChmod
    · rw [chmodStep_same fs p (Or.inr hnf)]
    · rw [chmodStep_set fs p hex hnf]
      show lookupA (updateA fs.modes p 0o755) q = lookupA fs.modes q
      exact lookupA_updateA_ne _ _ _ _ hne
  · rw [chmodStep_same fs p (Or.inl (Bool.not_eq_true _ ▸ hex))]

theorem chmod_keeps_mode (paths : List String) :
    ∀ fs q, lookupMode fs q = some 0o755 →
    lookupMode (chmod_executables fs paths) q = some 0o755 := by
  induction paths with
  | nil => intro fs q h; exact h
  | cons p rest ih =>
    intro fs q h
    rw [chmod_executables_step]
    refine ih (chmodStep fs p) q ?_
    by_cases hqp : q = p
    · subst hqp
      by_cases hex : FS.pathExists fs q = true
      · by_cases hnf : q ∈ fs.failChmod
        · rw [chmodStep_same fs q (Or.inr hnf)]; exact h
        · rw [chmodStep_set fs q hex hnf]
          show lookupA (updateA fs.modes q 0o755) q = some 0o755
          exact lookupA_updateA_self _ _ _
      · rw [chmodStep_same fs q (Or.inl (Bool.not_eq_true _ ▸ hex))]
        exact h
    · rw [chmodStep_mode_ne fs p q hqp]; exact h

theorem chmod_exec_master (paths : List String) :
    ∀ fs : FS, (chmod_executables fs paths).files = fs.files ∧
    (chmod_executables fs paths).dirs = fs.dirs ∧
    (chmod_executables fs paths).failMkdir = fs.failMkdir ∧
    (chmod_executables fs paths).failWrite = fs.failWrite ∧
    (chmod_executables fs paths).failChmod = fs.failChmod ∧
    (∀ q, FS.pathExists fs q = false →
      lookupMode (chmod_executables fs paths) q = lookupMode fs q) ∧
    (∀ q, q ∈ fs.failChmod →
      lookupMode (chmod_executables fs paths) q = lookupMode fs q) ∧
    (∀ q ∈ paths, FS.pathExists fs q = true → q ∉ fs.failChmod →
      lookupMode (chmod_executables fs paths) q = some 0o755) := by
  induction paths with
  | nil =>
    intro fs
    exact ⟨rfl, rfl, rfl, rfl, rfl, fun q _ => rfl, fun q _ => rfl,
      fun q hq => absurd hq (List.not_mem_nil _)⟩
  | cons p rest ih =>
    intro fs
    obtain ⟨sf, sd, sk, sw, sc⟩ := chmodStep_fields fs p
    obtain ⟨rf, rd, rk, rw2, rc, rmode1, rmode2, rset⟩ := ih (chmodStep fs p)
    have hexeq : ∀ q, FS.pathExists (chmodStep fs p) q = FS.pathExists fs q :=
      fun q => by rw [FS.pathExists, FS.pathExists, sf, sd]
    rw [chmod_executables_step]
    refine ⟨rf.trans sf, rd.trans sd, rk.trans sk, rw2.trans sw,
      rc.trans sc, ?_, ?_, ?_⟩
    · intro q hq
      rw [rmode1 q (by rw [hexeq]; exact hq)]
      by_cases hqp : q = p
      · subst hqp; rw [chmodStep_same fs q (Or.inl hq)]
      · rw [chmodStep_mode_ne fs p q hqp]
    · intro q hq
      rw [rmode2 q (by rw [sc]; exact hq)]
      by_cases hqp : q = p
      · subst hqp; rw [chmodStep_same fs q (Or.inr hq)]
      · rw [chmodStep_mode_ne fs p q hqp]
    · intro q hq hex hnf
      rcases List.mem_cons.1 hq with rfl | hq'
      · refine chmod_keeps_mode rest (chmodStep fs q) q ?_
        rw [chmodStep_set fs q hex hnf]
        show lookupA (updateA fs.modes q 0o755) q = some 0o755
        exact lookupA_updateA_self _ _ _
      · exact rset q hq' (by rw [hexeq]; exact hex) (by rw [sc]; exact hnf)

/-! ### The Writer ignores the chmod fault set -/

theorem pathExists_setFail (fs : FS) (l : List String) (p : String) :
    FS.pathExists (setFailChmod fs l) p = FS.pathExists fs p := rfl

theorem mkdir_setFail (fs : FS) (l : List String) (d : String) :
    FS.mkdir (setFailChmod fs l) d =
      (FS.mkdir fs d).map (fun g => setFailChmod g l) := by
  cases fs with
  | mk files dirs modes fm fw fc =>
    rw [FS.mkdir, FS.mkdir]
    simp only [setFailChmod]
    split_ifs <;> rfl

theorem mkdirs_setFail (ds : List String) :
    ∀ (fs : FS) (l : List String),
    ds.foldlM FS.mkdir (setFailChmod fs l) =
      (ds.foldlM FS.mkdir fs).map (fun g => setFailChmod g l) := by
  induction ds with
  | nil => intro fs l; rfl
  | cons d ds ih =>
    intro fs l
    rw [List.foldlM_cons, List.foldlM_cons, mkdir_setFail]
    cases hm : FS.mkdir fs d with
    | error e => rfl
    | ok g => exact ih g l

theorem write_text_setFail (fs : FS) (l : List String) (p c : String) :
    FS.write_text (setFailChmod fs l) p c =
      (FS.write_text fs p c).map (fun g => setFailChmod g l) := by
  cases fs with
  | mk files dirs modes fm fw fc =>
    rw [FS.write_text, FS.write_text]
    simp only [setFailChmod]
    split_ifs <;> rfl

theorem write_file_setFail (fs : FS) (l : List String) (p c : String)
    (ow : Bool) :
    write_file (setFailChmod fs l) p c ow =
      (write_file fs p c ow).map (fun g => setFailChmod g l) := by
  rw [write_file, write_file,
    show ensure_parent_dir (setFailChmod fs l) p =
      (ensure_parent_dir fs p).map (fun g => setFailChmod g l) from
      mkdirs_setFail (ancestors p) fs l]
  cases he : ensure_parent_dir fs p with
  | error e => rfl
  | ok fs1 =>
    show (if (FS.pathExists (setFailChmod fs1 l) p && !ow) = true
        then Except.ok (setFailChmod fs1 l)
        else FS.write_text (setFailChmod fs1 l) p c) =
      (if (FS.pathExists fs1 p && !ow) = true then Except.ok fs1
        else FS.write_text fs1 p c).map (fun g => setFailChmod g l)
    rw [pathExists_setFail]
    by_cases hc : (FS.pathExists fs1 p && !ow) = true
    · rw [if_pos hc, if_pos hc]; rfl
    · rw [if_neg hc, if_neg hc]; exact write_text_setFail fs1 l p c

theorem wa_setFail (tbl : List (String × String)) :
    ∀ (fs : FS) (l : List String) (ow : Bool),
    write_all (setFailChmod fs l) tbl ow =
      (write_all fs tbl ow).map (fun g => setFailChmod g l) := by
  induction tbl with
  | nil => intro fs l ow; rfl
  | cons e rest ih =>
    intro fs l ow
    rw [write_all_cons, write_all_cons, write_file_setFail]
    cases hw : write_file fs e.1 e.2 ow with
    | error er => rfl
    | ok g => exact ih g l ow

/-! ### Entry point helpers -/

theorem mainRun_eq (fs : FS) (ow : Bool) :
    mainRun fs ow = (write_all fs REPO_STRUCTURE ow).map
      (fun g => chmod_executables g EXECUTABLES) := rfl

theorem mainExitCode_eq (fs : FS) (ow : Bool) :
    mainExitCode fs ow = if (mainRun fs ow).isOk then 0 else 1 := rfl

theorem mainRun_of_wa_ok (fs : FS) (ow : Bool) (g : FS)
    (h : write_all fs REPO_STRUCTURE ow = .ok g) :
    mainRun fs ow = .ok (chmod_executables g EXECUTABLES) := by
  rw [mainRun_eq, h]
  rfl

theorem mainRun_of_wa_error (fs : FS) (ow : Bool) (e : String)
    (h : write_all fs REPO_STRUCTURE ow = .error e) :
    mainRun fs ow = .error e := by
  rw [mainRun_eq, h]
  rfl

theorem mainRun_cases (fs : FS) (ow : Bool) (r : Except String FS)
    (h : mainRun fs ow = r) :
    (∃ g, write_all fs REPO_STRUCTURE ow = .ok g ∧
      r = .ok (chmod_executables g EXECUTABLES)) ∨
    (∃ e, write_all fs REPO_STRUCTURE ow = .error e ∧ r = .error e) := by
  cases hv : write_all fs REPO_STRUCTURE ow with
  | ok g =>
    refine Or.inl ⟨g, rfl, ?_⟩
    rw [← h, mainRun_of_wa_ok fs ow g hv]
  | error e =>
    refine Or.inr ⟨e, rfl, ?_⟩
    rw [← h, mainRun_of_wa_error fs ow e hv]

theorem mainExitCode_of_ok (fs : FS) (ow : Bool) (g : FS)
    (h : mainRun fs ow = .ok g) : mainExitCode fs ow = 0 := by
  rw [mainExitCode_eq, h]
  rfl

theorem mainExitCode_of_error (fs : FS) (ow : Bool) (e : String)
    (h : mainRun fs ow = .error e) : mainExitCode fs ow = 1 := by
  rw [mainExitCode_eq, h]
  rfl

theorem mainExitCode_setFail (fs : FS) (l : List String) (ow : Bool) :
    mainExitCode (setFailChmod fs l) ow = mainExitCode fs ow := by
  have hwa := wa_setFail REPO_STRUCTURE fs l ow
  cases hv : write_all fs REPO_STRUCTURE ow with
  | ok g =>
    have h1 : write_all (setFailChmod fs l) REPO_STRUCTURE ow =
        .ok (setFailChmod g l) := by rw [hwa, hv]; rfl
    rw [mainExitCode_of_ok _ _ _ (mainRun_of_wa_ok _ _ _ h1),
      mainExitCode_of_ok _ _ _ (mainRun_of_wa_ok _ _ _ hv)]
  | error e =>
    have h1 : write_all (setFailChmod fs l) REPO_STRUCTURE ow =
        .error e := by rw [hwa, hv]; rfl
    rw [mainExitCode_of_error _ _ _ (mainRun_of_wa_error _ _ _ h1),
      mainExitCode_of_error _ _ _ (mainRun_of_wa_error _ _ _ hv)]

/-! ### Structure Table glue facts -/

theorem repo_nodup : (REPO_STRUCTURE.map Prod.fst).Nodup := by
  rw [repo_eq]
  exact repo_keys_nodup

theorem repo_noanc :
    ∀ e ∈ REPO_STRUCTURE, ∀ r ∈ REPO_STRUCTURE, e.1 ∉ ancestors r.1 := by
  intro e he r hr
  rw [repo_eq] at he hr
  exact repo_no_anc e he r hr

theorem repo_wa_progress (fs : FS) (ow : Bool)
    (hfm : fs.failMkdir = []) (hfw : fs.failWrite = [])
    (hfiles : ∀ e ∈ REPO_STRUCTURE, ∀ a ∈ ancestors e.1,
      hasKeyA fs.files a = false)
    (hdirs : ∀ e ∈ REPO_STRUCTURE, e.1 ∉ fs.dirs) :
    ∃ fs', write_all fs REPO_STRUCTURE ow = .ok fs' := by
  refine wa_progress REPO_STRUCTURE fs ow (REPO_STRUCTURE.map Prod.fst)
    (REPO_STRUCTURE.flatMap (fun e => ancestors e.1)) hfm hfw
    (fun e he => List.mem_map_of_mem _ he)
    (fun e he a ha => List.mem_flatMap.2 ⟨e, he, ha⟩) ?_ ?_ ?_
  · intro a ha
    obtain ⟨r, hr, har⟩ := List.mem_flatMap.1 ha
    exact hfiles r hr a har
  · intro k hk hmem
    obtain ⟨e, he, hek⟩ := List.mem_map.1 hk
    exact hdirs e he (by rw [hek]; exact hmem)
  · intro a ha hk
    obtain ⟨r, hr, har⟩ := List.mem_flatMap.1 ha
    obtain ⟨e, he, hek⟩ := List.mem_map.1 hk
    exact repo_noanc e he r hr (by rw [hek]; exact har)

theorem repo_wa_progress_one (p c0 : String) (ow : Bool)
    (hp : p ∈ REPO_STRUCTURE.map Prod.fst) :
    ∃ fs', write_all ⟨[(p, c0)], [], [], [], [], []⟩ REPO_STRUCTURE ow =
      .ok fs' := by
  obtain ⟨ep, hep, hp1⟩ := List.mem_map.1 hp
  refine repo_wa_progress _ ow rfl rfl ?_ ?_
  · intro e he a ha
    have hne : ¬(p = a) := by
      intro heq
      exact repo_noanc ep hep e he (by rw [hp1, heq]; exact ha)
    show ([(p, c0)].any (fun x => x.1 == a)) = false
    rw [List.any_cons, List.any_nil, Bool.or_false]
    simpa using hne
  · intro e _
    exact List.not_mem_nil _

theorem repo_anc_ne_junk :
    ∀ e ∈ REPO_STRUCTURE, ∀ a ∈ ancestors e.1, ¬(a = "junk") := by
  have h : (repoInsertions SERVICE_NAMES FLUTTER_FEATURES ML_MODELS).all
      (fun e => (ancestors e.1).all (fun a => !(a == "junk"))) = true := by
    decide
  intro e he a ha
  rw [repo_eq] at he
  have h2 := List.all_eq_true.1 (List.all_eq_true.1 h e he) a ha
  simpa using h2

theorem repo_keys_ne_preexisting :
    ∀ e ∈ REPO_STRUCTURE, ¬(e.1 = "preexisting") := by
  have h : (repoInsertions SERVICE_NAMES FLUTTER_FEATURES ML_MODELS).all
      (fun e => !(e.1 == "preexisting")) = true := by decide
  intro e he
  rw [repo_eq] at he
  simpa using List.all_eq_true.1 h e he

/-! ### The claims -/

/-- C1.  Completeness: a run of `write_all` over the Structure Table
against an empty root succeeds, and afterwards every relative path that
is a key of the table exists as a file whose content is byte-for-byte
the defined content string of that entry. -/
theorem writer_completeness_empty_root :
    ∃ fs', write_all emptyFS REPO_STRUCTURE false = .ok fs' ∧
      ∀ p c, (p, c) ∈ REPO_STRUCTURE → lookupFile fs' p = some c := by
  obtain ⟨fs', h⟩ := repo_wa_progress emptyFS false rfl rfl
    (fun e _ a _ => rfl) (fun e _ => List.not_mem_nil _)
  refine ⟨fs', h, ?_⟩
  intro p c hmem
  exact wa_writes_false REPO_STRUCTURE emptyFS fs' p c repo_nodup
    (fun r hr => repo_noanc (p, c) hmem r hr) rfl hmem h

/-- Witness for C1 at the entry `README.md`. -/
theorem writer_completeness_empty_root_witness :
    ∃ fs', write_all emptyFS REPO_STRUCTURE false = .ok fs' ∧
      lookupFile fs' "README.md" = some "# ASV\n\nMonorepo scaffold.\n" := by
  obtain ⟨fs', h, hall⟩ := writer_completeness_empty_root
  refine ⟨fs', h, hall "README.md" "# ASV\n\nMonorepo scaffold.\n" ?_⟩
  rw [repo_eq]
  decide

/-- C2.  Non-destructive default: with `overwrite=false`, any
pre-existing file keeps its content byte-for-byte after the run, and
every table entry whose path did not exist beforehand is still created
with its defined content. -/
theorem writer_nondestructive_default (fs : FS) (p c0 : String) (fs' : FS)
    (hpre : lookupFile fs p = some c0)
    (hrun : write_all fs REPO_STRUCTURE false = .ok fs') :
    lookupFile fs' p = some c0 ∧
      ∀ q cq, (q, cq) ∈ REPO_STRUCTURE → FS.pathExists fs q = false →
        lookupFile fs' q = some cq := by
  refine ⟨wa_preserve REPO_STRUCTURE fs fs' p c0 hpre hrun, ?_⟩
  intro q cq hmem hex
  exact wa_writes_false REPO_STRUCTURE fs fs' q cq repo_nodup
    (fun r hr => repo_noanc (q, cq) hmem r hr) hex hmem hrun

/-- Witness for C2: a root pre-populated with custom content at
`README.md` keeps it, while `LICENSE` is still created. -/
theorem writer_nondestructive_default_witness :
    ∃ fs', write_all preFS REPO_STRUCTURE false = .ok fs' ∧
      lookupFile fs' "README.md" = some "custom" ∧
      lookupFile fs' "LICENSE" = some "TODO: rAdd license text.\n" := by
  obtain ⟨fs', h⟩ := repo_wa_progress_one "README.md" "custom" false
    (by rw [repo_eq]; decide)
  have h' : write_all preFS REPO_STRUCTURE false = .ok fs' := h
  have hmain := writer_nondestructive_default preFS "README.md" "custom"
    fs' (by decide) h'
  refine ⟨fs', h', hmain.1, ?_⟩
  refine hmain.2 "LICENSE" "TODO: rAdd license text.\n" ?_ (by decide)
  rw [repo_eq]
  decide

/-- C4.  Overwrite forces refresh: with `overwrite=true`, a path that is
a key of the table ends the run with exactly the table's defined
content, replacing any pre-existing content. -/
theorem writer_overwrite_refreshes (fs : FS) (p c c0 : String) (fs' : FS)
    (hpre : lookupFile fs p = some c0) (hmem : (p, c) ∈ REPO_STRUCTURE)
    (hrun : write_all fs REPO_STRUCTURE true = .ok fs') :
    lookupFile fs' p = some c :=
  wa_writes_true REPO_STRUCTURE fs fs' p c repo_nodup hmem hrun

/-- Witness for C4: the pre-populated `README.md` is replaced with the
table's content when overwriting. -/
theorem writer_overwrite_refreshes_witness :
    ∃ fs', write_all preFS REPO_STRUCTURE true = .ok fs' ∧
      lookupFile fs' "README.md" = some "# ASV\n\nMonorepo scaffold.\n" := by
  obtain ⟨fs', h⟩ := repo_wa_progress_one "README.md" "custom" true
    (by rw [repo_eq]; decide)
  have h' : write_all preFS REPO_STRUCTURE true = .ok fs' := h
  refine ⟨fs', h', ?_⟩
  refine writer_overwrite_refreshes preFS "README.md"
    "# ASV\n\nMonorepo scaffold.\n" "custom" fs' (by decide) ?_ h'
  rw [repo_eq]
  decide

/-- C10.  No construction-time collisions: the keys of the insertion
sequence are pairwise distinct, so replaying the sequence through
Python dict-assignment semantics ("last insertion wins") never replaces
an entry, the resulting table is the plain insertion sequence, and its
size equals the number of insertions. -/
theorem structure_table_no_collisions :
    ((repoInsertions SERVICE_NAMES FLUTTER_FEATURES ML_MODELS).map
      Prod.fst).Nodup ∧
    buildRepoStructure SERVICE_NAMES FLUTTER_FEATURES ML_MODELS =
      repoInsertions SERVICE_NAMES FLUTTER_FEATURES ML_MODELS ∧
    REPO_STRUCTURE.length =
      (repoInsertions SERVICE_NAMES FLUTTER_FEATURES ML_MODELS).length := by
  refine ⟨repo_keys_nodup, repo_eq, by rw [repo_eq]⟩

/-- C3.  Idempotence: the run against an empty root succeeds, and
running the tool a second time with `overwrite=false` changes nothing:
the Writer returns the filesystem unchanged, and the full tool (Writer
then Permission Setter) leaves the same file set, file contents and
directory set. -/
theorem writer_idempotent_rerun :
    ∃ g1 g2, mainRun emptyFS false = .ok g1 ∧
      write_all g1 REPO_STRUCTURE false = .ok g1 ∧
      mainRun g1 false = .ok g2 ∧
      g2.files = g1.files ∧ g2.dirs = g1.dirs := by
  obtain ⟨w1, hw1⟩ := repo_wa_progress emptyFS false rfl rfl
    (fun e _ a _ => rfl) (fun e _ => List.not_mem_nil _)
  have hm1 : mainRun emptyFS false =
      .ok (chmod_executables w1 EXECUTABLES) :=
    mainRun_of_wa_ok _ _ _ hw1
  obtain ⟨cf, cd, _, _, _, _, _, _⟩ := chmod_exec_master EXECUTABLES w1
  have hkeys : ∀ e ∈ REPO_STRUCTURE,
      FS.pathExists (chmod_executables w1 EXECUTABLES) e.1 = true := by
    intro e he
    have hl : lookupFile w1 e.1 = some e.2 :=
      wa_writes_false REPO_STRUCTURE emptyFS w1 e.1 e.2 repo_nodup
        (fun r hr => repo_noanc e he r hr) rfl he hw1
    have hk : hasKeyA (chmod_executables w1 EXECUTABLES).files e.1 = true := by
      rw [cf]
      exact hasKeyA_of_lookupA hl
    rw [FS.pathExists, hk, Bool.true_or]
  have hancs : ∀ e ∈ REPO_STRUCTURE, ∀ a ∈ ancestors e.1,
      (chmod_executables w1 EXECUTABLES).dirs.contains a = true := by
    intro e he a ha
    refine contains_iff_mem.2 ?_
    rw [cd]
    exact wa_ancestors_dirs REPO_STRUCTURE emptyFS w1 false hw1 e he a ha
  have hnoop : write_all (chmod_executables w1 EXECUTABLES)
      REPO_STRUCTURE false = .ok (chmod_executables w1 EXECUTABLES) :=
    wa_noop REPO_STRUCTURE _ hkeys hancs
  have hm2 : mainRun (chmod_executables w1 EXECUTABLES) false =
      .ok (chmod_executables (chmod_executables w1 EXECUTABLES)
        EXECUTABLES) :=
    mainRun_of_wa_ok _ _ _ hnoop
  obtain ⟨cf2, cd2, _, _, _, _, _, _⟩ :=
    chmod_exec_master EXECUTABLES (chmod_executables w1 EXECUTABLES)
  exact ⟨chmod_executables w1 EXECUTABLES, _, hm1, hnoop, hm2, cf2, cd2⟩

/-- C5.  Fatal I/O failure propagation: when a `write_file` step raises,
the Writer loop returns that very error immediately (the remaining
entries are never reached, nothing is retried or swallowed), and the
process exit code is 1 on an aborted run and 0 on a successful one. -/
theorem writer_fatal_error_propagates :
    (∀ (fs fs1 : FS) (ow : Bool) (t1 t2 : List (String × String))
      (p c e : String),
      write_all fs t1 ow = .ok fs1 → write_file fs1 p c ow = .error e →
      write_all fs (t1 ++ (p, c) :: t2) ow = .error e) ∧
    (∀ (fs : FS) (ow : Bool) (e : String),
      mainRun fs ow = .error e → mainExitCode fs ow = 1) ∧
    (∀ (fs : FS) (ow : Bool) (g : FS),
      mainRun fs ow = .ok g → mainExitCode fs ow = 0) := by
  refine ⟨?_, mainExitCode_of_error, mainExitCode_of_ok⟩
  intro fs fs1 ow t1 t2 p c e h1 h2
  rw [wa_append t1 ((p, c) :: t2) fs ow, h1]
  show write_all fs1 ((p, c) :: t2) ow = Except.error e
  rw [write_all_cons, h2]
  rfl

/-- Witness for C5: with a write fault injected at `README.md`, the
single failing entry aborts a generic Writer run with that error, the
full tool on the real table exits with code 1, and a clean run exits
with code 0. -/
theorem writer_fatal_error_propagates_witness :
    write_all failFS ([] ++ ("README.md", "x") :: []) true =
      .error "OSError: write README.md" ∧
    mainExitCode failFS true = 1 ∧
    mainExitCode emptyFS false = 0 := by
  refine ⟨?_, ?_, ?_⟩
  · exact writer_fatal_error_propagates.1 failFS failFS true [] []
      "README.md" "x" "OSError: write README.md" rfl (by decide)
  · refine writer_fatal_error_propagates.2.1 failFS true
      "OSError: write README.md" ?_
    refine mainRun_of_wa_error failFS true "OSError: write README.md" ?_
    rw [repo_eq]
    decide
  · obtain ⟨g, hg⟩ := repo_wa_progress emptyFS false rfl rfl
      (fun e _ a _ => rfl) (fun e _ => List.not_mem_nil _)
    exact writer_fatal_error_propagates.2.2 emptyFS false _
      (mainRun_of_wa_ok _ _ _ hg)

/-- C6.  Permission setting is best-effort: `chmod_executables` is a
total function that never fails; it touches nothing but permission
modes; a path that does not exist, or whose chmod raises, is skipped
with its mode unchanged while the loop continues; every existing,
non-failing listed path ends with mode 0o755; and the chmod fault set
never changes the run's exit status. -/
theorem permission_setter_best_effort :
    ∀ (fs : FS) (paths : List String),
    (chmod_executables fs paths).files = fs.files ∧
    (chmod_executables fs paths).dirs = fs.dirs ∧
    (∀ q, FS.pathExists fs q = false →
      lookupMode (chmod_executables fs paths) q = lookupMode fs q) ∧
    (∀ q, q ∈ fs.failChmod →
      lookupMode (chmod_executables fs paths) q = lookupMode fs q) ∧
    (∀ q ∈ paths, FS.pathExists fs q = true → q ∉ fs.failChmod →
      lookupMode (chmod_executables fs paths) q = some 0o755) ∧
    (∀ (l : List String) (ow : Bool),
      mainExitCode (setFailChmod fs l) ow = mainExitCode fs ow) := by
  intro fs paths
  obtain ⟨a, b, _, _, _, c, d, e⟩ := chmod_exec_master paths fs
  exact ⟨a, b, c, d, e, fun l ow => mainExitCode_setFail fs l ow⟩

/-- Witness for C6: chmod fails on `a.sh` and leaves it untouched; the
loop continues and still marks `b.sh` with mode 0o755; a missing path is
skipped; files are untouched; the exit status ignores chmod faults. -/
theorem permission_setter_best_effort_witness :
    (chmod_executables permFS ["a.sh", "b.sh", "missing"]).files =
      permFS.files ∧
    lookupMode (chmod_executables permFS ["a.sh", "b.sh", "missing"])
      "a.sh" = lookupMode permFS "a.sh" ∧
    lookupMode (chmod_executables permFS ["a.sh", "b.sh", "missing"])
      "missing" = lookupMode permFS "missing" ∧
    lookupMode (chmod_executables permFS ["a.sh", "b.sh", "missing"])
      "b.sh" = some 0o755 ∧
    mainExitCode (setFailChmod permFS ["b.sh"]) false =
      mainExitCode permFS false := by
  obtain ⟨a, b, c, d, e, f⟩ :=
    permission_setter_best_effort permFS ["a.sh", "b.sh", "missing"]
  refine ⟨a, d "a.sh" (by decide), c "missing" (by decide), ?_, f ["b.sh"] false⟩
  refine e "b.sh" (by decide) (by decide) (by decide)

/-- C7.  Generated service entries: for each service name `s`, the table
contains both `backend/services/{ s}/src/README.md` and
`backend/services/{ s}/tests/README.md`, and after a run against an
empty root both files exist with content containing the name `s`. -/
theorem generated_service_entries :
    ∀ s ∈ SERVICE_NAMES,
    ("backend/services/" ++ s ++ "/src/README.md", "# " ++ s ++ "\n") ∈
      REPO_STRUCTURE ∧
    ("backend/services/" ++ s ++ "/tests/README.md",
      "# tests for " ++ s ++ "\n") ∈ REPO_STRUCTURE ∧
    ∃ fs', write_all emptyFS REPO_STRUCTURE false = .ok fs' ∧
      (∃ pre post, lookupFile fs'
        ("backend/services/" ++ s ++ "/src/README.md") =
        some (pre ++ s ++ post)) ∧
      (∃ pre post, lookupFile fs'
        ("backend/services/" ++ s ++ "/tests/README.md") =
        some (pre ++ s ++ post)) := by
  intro s hs
  have hsvc1 : ("backend/services/" ++ s ++ "/src/README.md",
      "# " ++ s ++ "\n") ∈ serviceEntries SERVICE_NAMES :=
    List.mem_flatMap.2 ⟨s, hs, List.mem_cons_self ..⟩
  have hsvc2 : ("backend/services/" ++ s ++ "/tests/README.md",
      "# tests for " ++ s ++ "\n") ∈ serviceEntries SERVICE_NAMES :=
    List.mem_flatMap.2
      ⟨s, hs, List.mem_cons_of_mem _ (List.mem_cons_self ..)⟩
  have hm1 : ("backend/services/" ++ s ++ "/src/README.md",
      "# " ++ s ++ "\n") ∈ REPO_STRUCTURE := by
    rw [repo_eq, repoInsertions]
    exact List.mem_append_left _ (List.mem_append_left _
      (List.mem_append_left _ (List.mem_append_left _
      (List.mem_append_left _ (List.mem_append_left _
      (List.mem_append_left _ (List.mem_append_left _
      (List.mem_append_right _ hsvc1))))))))
  have hm2 : ("backend/services/" ++ s ++ "/tests/README.md",
      "# tests for " ++ s ++ "\n") ∈ REPO_STRUCTURE := by
    rw [repo_eq, repoInsertions]
    exact List.mem_append_left _ (List.mem_append_left _
      (List.mem_append_left _ (List.mem_append_left _
      (List.mem_append_left _ (List.mem_append_left _
      (List.mem_append_left _ (List.mem_append_left _
      (List.mem_append_right _ hsvc2))))))))
  obtain ⟨fs', h⟩ := repo_wa_progress emptyFS false rfl rfl
    (fun e _ a _ => rfl) (fun e _ => List.not_mem_nil _)
  refine ⟨hm1, hm2, fs', h, ⟨"# ", "\n", ?_⟩, ⟨"# tests for ", "\n", ?_⟩⟩
  · exact wa_writes_false REPO_STRUCTURE emptyFS fs' _ _ repo_nodup
      (fun r hr => repo_noanc _ hm1 r hr) rfl hm1 h
  · exact wa_writes_false REPO_STRUCTURE emptyFS fs' _ _ repo_nodup
      (fun r hr => repo_noanc _ hm2 r hr) rfl hm2 h

/-- Witness for C7 at `s = "gateway"`. -/
theorem generated_service_entries_witness :
    ("backend/services/" ++ "gateway" ++ "/src/README.md",
      "# " ++ "gateway" ++ "\n") ∈ REPO_STRUCTURE ∧
    ∃ fs', write_all emptyFS REPO_STRUCTURE false = .ok fs' ∧
      (∃ pre post, lookupFile fs'
        ("backend/services/" ++ "gateway" ++ "/src/README.md") =
        some (pre ++ "gateway" ++ post)) := by
  obtain ⟨h1, _, fs', h, hsrc, _⟩ :=
    generated_service_entries "gateway" (by decide)
  exact ⟨h1, fs', h, hsrc⟩

/-- C8.  The Writer never silently deletes an existing directory: a run
only ever grows the directory set; with `overwrite=true` a directory at
a target path makes `write_file` raise rather than delete it; with
`overwrite=false` the entry is skipped with the file store untouched. -/
theorem writer_never_deletes_directory :
    (∀ (fs fs' : FS) (tbl : List (String × String)) (ow : Bool)
      (d : String),
      write_all fs tbl ow = .ok fs' → d ∈ fs.dirs → d ∈ fs'.dirs) ∧
    (∀ (fs g : FS) (ow : Bool) (d : String),
      mainRun fs ow = .ok g → d ∈ fs.dirs → d ∈ g.dirs) ∧
    (∀ (fs : FS) (p c : String), p ∈ fs.dirs →
      ∃ e, write_file fs p c true = .error e) ∧
    (∀ (fs fs' : FS) (p c : String), p ∈ fs.dirs →
      write_file fs p c false = .ok fs' →
      p ∈ fs'.dirs ∧ fs'.files = fs.files) := by
  refine ⟨?_, ?_, ?_, ?_⟩
  · intro fs fs' tbl ow d h hd
    exact wa_dirs_mono tbl fs fs' ow h d hd
  · intro fs g ow d h hd
    rcases mainRun_cases fs ow _ h with ⟨w, hw, heq⟩ | ⟨e, _, heq⟩
    · obtain ⟨_, cd, _, _, _, _, _, _⟩ := chmod_exec_master EXECUTABLES w
      rw [Except.ok.injEq] at heq
      rw [heq]
      show d ∈ (chmod_executables w EXECUTABLES).dirs
      rw [cd]
      exact wa_dirs_mono REPO_STRUCTURE fs w ow hw d hd
    · exact Except.noConfusion heq
  · intro fs p c hp
    cases he : ensure_parent_dir fs p with
    | error e => exact ⟨e, by rw [write_file, he]⟩
    | ok fs1 =>
      obtain ⟨_, _, _, _, _, _, emono, _⟩ := mkdirs_ok (ancestors p) fs fs1 he
      refine ⟨"IsADirectoryError: " ++ p, ?_⟩
      rw [write_file, he]
      show (if (fs1.pathExists p && !true) = true then Except.ok fs1
        else fs1.write_text p c) = _
      rw [if_neg (by simp), FS.write_text,
        if_pos (contains_iff_mem.2 (emono p hp))]
  · intro fs fs' p c hp h
    obtain ⟨fs1, he, hcase⟩ := write_file_ok_cases fs fs' p c false h
    obtain ⟨ef, _, _, _, _, _, emono, _⟩ := mkdirs_ok (ancestors p) fs fs1 he
    have hex : fs1.pathExists p = true := by
      rw [FS.pathExists, Bool.or_eq_true]
      exact Or.inr (contains_iff_mem.2 (emono p hp))
    rcases hcase with ⟨_, rfl⟩ | ⟨hcond, _⟩
    · exact ⟨emono p hp, ef⟩
    · rw [hex] at hcond
      simp at hcond

/-- Witness for C8: with a pre-existing directory `preexisting`,
overwriting a file onto it raises, and a full successful run keeps the
directory in place. -/
theorem writer_never_deletes_directory_witness :
    (∃ e, write_file dirFS "preexisting" "x" true = .error e) ∧
    (∃ g, mainRun dirFS false = .ok g ∧ "preexisting" ∈ g.dirs) := by
  have hdirs : ∀ e ∈ REPO_STRUCTURE, e.1 ∉ dirFS.dirs := by
    intro e he hmem
    rcases List.mem_cons.1 hmem with h1 | h2
    · exact repo_keys_ne_preexisting e he h1
    · exact List.not_mem_nil _ h2
  obtain ⟨w, hw⟩ := repo_wa_progress dirFS false rfl rfl
    (fun e _ a _ => rfl) hdirs
  refine ⟨writer_never_deletes_directory.2.2.1 dirFS "preexisting" "x"
    (by decide), ?_⟩
  exact ⟨_, mainRun_of_wa_ok _ _ _ hw,
    writer_never_deletes_directory.2.1 dirFS _ false "preexisting"
      (mainRun_of_wa_ok _ _ _ hw) (by decide)⟩

/-- C9.  Determinism of the Structure Table: the table is one pure
constant, so any two runs with the same flag value, from any two roots
in which a table path is fresh, write that path with identical content,
namely the table's defined content. -/
theorem structure_table_deterministic :
    ∀ (fsA fsB : FS) (ow : Bool) (gA gB : FS) (p c : String),
    mainRun fsA ow = .ok gA → mainRun fsB ow = .ok gB →
    (p, c) ∈ REPO_STRUCTURE →
    FS.pathExists fsA p = false → FS.pathExists fsB p = false →
    lookupFile gA p = some c ∧ lookupFile gB p = some c ∧
      lookupFile gA p = lookupFile gB p := by
  intro fsA fsB ow gA gB p c hA hB hmem hexA hexB
  have key : ∀ (fs g : FS), mainRun fs ow = .ok g →
      FS.pathExists fs p = false → lookupFile g p = some c := by
    intro fs g h hex
    rcases mainRun_cases fs ow _ h with ⟨w, hw, heq⟩ | ⟨e, _, heq⟩
    · obtain ⟨cf, _, _, _, _, _, _, _⟩ := chmod_exec_master EXECUTABLES w
      rw [Except.ok.injEq] at heq
      have hl : lookupFile w p = some c := by
        cases ow with
        | true =>
          exact wa_writes_true REPO_STRUCTURE fs w p c repo_nodup hmem hw
        | false =>
          exact wa_writes_false REPO_STRUCTURE fs w p c repo_nodup
            (fun r hr => repo_noanc (p, c) hmem r hr) hex hmem hw
      rw [heq]
      show lookupA (chmod_executables w EXECUTABLES).files p = some c
      rw [cf]
      exact hl
    · exact Except.noConfusion heq
  have h1 := key fsA gA hA hexA
  have h2 := key fsB gB hB hexB
  exact ⟨h1, h2, by rw [h1, h2]⟩

/-- Witness for C9: runs from an empty root and from a root holding an
unrelated file both materialize `README.md` with the same content. -/
theorem structure_table_deterministic_witness :
    ∃ gA gB, mainRun emptyFS false = .ok gA ∧
      mainRun junkFS false = .ok gB ∧
      lookupFile gA "README.md" = some "# ASV\n\nMonorepo scaffold.\n" ∧
      lookupFile gB "README.md" = some "# ASV\n\nMonorepo scaffold.\n" ∧
      lookupFile gA "README.md" = lookupFile gB "README.md" := by
  obtain ⟨wA, hwA⟩ := repo_wa_progress emptyFS false rfl rfl
    (fun e _ a _ => rfl) (fun e _ => List.not_mem_nil _)
  have hfilesB : ∀ e ∈ REPO_STRUCTURE, ∀ a ∈ ancestors e.1,
      hasKeyA junkFS.files a = false := by
    intro e he a ha
    show ([("junk", "x")].any (fun x => x.1 == a)) = false
    rw [List.any_cons, List.any_nil, Bool.or_false]
    have hne := repo_anc_ne_junk e he a ha
    simpa using fun hj => hne hj.symm
  obtain ⟨wB, hwB⟩ := repo_wa_progress junkFS false rfl rfl hfilesB
    (fun e _ => List.not_mem_nil _)
  have hA := mainRun_of_wa_ok _ _ _ hwA
  have hB := mainRun_of_wa_ok _ _ _ hwB
  obtain ⟨l1, l2, l3⟩ := structure_table_deterministic emptyFS junkFS
    false _ _ "README.md" "# ASV\n\nMonorepo scaffold.\n" hA hB
    (by rw [repo_eq]; decide) (by decide) (by decide)
  exact ⟨_, _, hA, hB, l1, l2, l3⟩
